import Mathlib

/-!
# Circle canvas (`main.cpp`): storage, selection, dragging, deletion

A shallow embedding of the classes `CCircle`, `CCircleStorage` and `CircleView`
of `main.cpp`.

* `qreal` values are exact rationals (`ℚ`); the conversion `qreal → int` that
  happens in `QRect(posX, posY, radius, radius)` is truncation toward zero.
  The drag step is given a second time with every sum and difference rounded
  to binary64 (`mouseMoveEventDouble`), to compare exact and machine arithmetic.
* A `CCircle*` is an address (`Ptr`); the objects live in a heap
  `Ptr → Option CCircle`, where `none` means "no live object at this address".
  Dereferencing such an address, or calling through the null scene pointer of
  an item that is in no scene, is undefined behaviour in C++ and is `none` here.
* The `QGraphicsScene` is the list of the items it holds, in insertion order.
* The two geometric predicates of Qt that the program calls
  (`QGraphicsEllipseItem::contains`, `QGraphicsItem::collidesWithItem`) are
  parameters (`Toolkit`); the general theorems hold for every choice of them.
* Rendering attributes (colour, brush, pen) and the iteration cursor of
  `CCircleStorage` (`currentIndex`, which no handler uses) are not part of the
  state: no statement below reads them.
* The calls of the base-class handlers at the end of the overridden handlers do
  not touch the modelled state: the items are neither selectable nor movable for
  Qt, and `CCircle::setSelected` is a member of its own, not the Qt selection.
-/

namespace Laba3

/-- Address of a heap-allocated `CCircle` (the value of a `CCircle*`). -/
abbrev Ptr := Nat

/-- Qt `QPointF` with exact coordinates. -/
structure QPointF where
  x : ℚ
  y : ℚ
deriving DecidableEq

/-- Qt `QRectF`: top-left corner, width and height. -/
structure QRectF where
  x : ℚ
  y : ℚ
  width : ℚ
  height : ℚ
deriving DecidableEq

/-- Implicit C++ conversion `qreal → int`: the fractional part is discarded
(truncation toward zero). The result is meant for values within the range of
`int`; outside it the conversion is undefined in C++. -/
def qrealToInt (q : ℚ) : Int :=
  Int.tdiv q.num q.den

/-- The rectangle `QRect(x, y, w, h)` (integer arguments) seen as the `QRectF`
that `QGraphicsEllipseItem` stores. -/
def QRect (x y w h : Int) : QRectF :=
  { x := (x : ℚ), y := (y : ℚ), width := (w : ℚ), height := (h : ℚ) }

/-- Corner-to-corner form of a rectangle: `(left, top, right, bottom)`. -/
def QRectF.corners (r : QRectF) : ℚ × ℚ × ℚ × ℚ :=
  (r.x, r.y, r.x + r.width, r.y + r.height)

/-- Centre of a rectangle, `QRectF::center`. -/
def QRectF.center (r : QRectF) : QPointF :=
  { x := r.x + r.width / 2, y := r.y + r.height / 2 }

/-- Data members of `CCircle` together with the two pieces of state of its base
class that the program uses: `rect()` of `QGraphicsEllipseItem` and `pos()` of
`QGraphicsItem`. -/
structure CCircle where
  selected : Bool
  radius : Int
  centerX : ℚ
  centerY : ℚ
  rect : QRectF
  pos : QPointF
deriving DecidableEq

/-- Constructor `CCircle::CCircle(qreal posX, qreal posY, int radius)`: the base
is built from `QRect(posX, posY, radius, radius)`, whose arguments are `int`;
`centerX`/`centerY` keep the untruncated values; a new item has `pos() = (0,0)`. -/
def CCircle.construct (posX posY : ℚ) (radius : Int) : CCircle :=
  { selected := false
    radius := radius
    centerX := posX
    centerY := posY
    rect := QRect (qrealToInt posX) (qrealToInt posY) radius radius
    pos := { x := 0, y := 0 } }

/-- Flag part of `CCircle::setSelected`. -/
def CCircle.setSelected (c : CCircle) (selected : Bool) : CCircle :=
  { c with selected := selected }

/-- Getter `CCircle::isSelected`. -/
def CCircle.isSelected (c : CCircle) : Bool :=
  c.selected

/-- Getter `CCircle::getX`. -/
def CCircle.getX (c : CCircle) : ℚ :=
  c.centerX

/-- Getter `CCircle::getY`. -/
def CCircle.getY (c : CCircle) : ℚ :=
  c.centerY

/-- Qt `QGraphicsItem::moveBy(dx, dy)`: `setPos(pos() + (dx, dy))`. -/
def CCircle.moveBy (c : CCircle) (dx dy : ℚ) : CCircle :=
  { c with pos := { x := c.pos.x + dx, y := c.pos.y + dy } }

/-- Qt `QGraphicsItem::mapFromScene` for a top-level item without
transformation: subtract the item position. -/
def CCircle.mapFromScene (c : CCircle) (p : QPointF) : QPointF :=
  { x := p.x - c.pos.x, y := p.y - c.pos.y }

/-- Qt `QGraphicsItem::sceneBoundingRect` restricted to the ellipse rectangle:
`rect()` translated by `pos()`. -/
def CCircle.sceneRect (c : CCircle) : QRectF :=
  { x := c.rect.x + c.pos.x, y := c.rect.y + c.pos.y,
    width := c.rect.width, height := c.rect.height }

/-- The geometric predicates of Qt used by the program. -/
structure Toolkit where
  /-- Result of `QGraphicsEllipseItem::contains(p)` for an item with the given
  `rect()` and a point `p` in item coordinates. -/
  contains : QRectF → QPointF → Bool
  /-- Result of `a->collidesWithItem(b)`. -/
  collidesWithItem : CCircle → CCircle → Bool

/-- Method `CCircle::isCursorFocused`. -/
def CCircle.isCursorFocused (qt : Toolkit) (c : CCircle) (positionCursor : QPointF) : Bool :=
  qt.contains c.rect (c.mapFromScene positionCursor)

/-- Exact geometry, used for concrete evaluations: a point is in the ellipse
inscribed in `r` iff `((2(px - x) - w) h)^2 + ((2(py - y) - h) w)^2 ≤ (w h)^2`;
two items collide iff the discs inscribed in their scene rectangles meet. -/
def exactToolkit : Toolkit :=
  { contains := fun r p =>
      decide (((2 * (p.x - r.x) - r.width) * r.height) ^ 2
        + ((2 * (p.y - r.y) - r.height) * r.width) ^ 2 ≤ (r.width * r.height) ^ 2)
    collidesWithItem := fun a b =>
      decide ((2 * (a.sceneRect.center.x - b.sceneRect.center.x)) ^ 2
        + (2 * (a.sceneRect.center.y - b.sceneRect.center.y)) ^ 2
        ≤ (a.rect.width + b.rect.width) ^ 2) }

/-- The heap of `CCircle` objects. -/
abbrev Heap := Ptr → Option CCircle

/-- Program state: the heap, `CCircleStorage::circles`, the items of the
`QGraphicsScene` in insertion order, and `CircleView::lastMousePos`. -/
structure World where
  heap : Heap
  circles : List Ptr
  scene : List Ptr
  lastMousePos : QPointF

/-- The `selected` flag of the object at `p` (`false` when there is none). -/
def Heap.selectedAt (h : Heap) (p : Ptr) : Bool :=
  match h p with
  | some c => c.isSelected
  | none => false

/-- Method `CCircleStorage::add`. -/
def add (w : World) (circ : Ptr) : World :=
  { w with circles := w.circles ++ [circ] }

/-- Destruction of the item at `p` (`delete p`): the `QGraphicsItem` destructor
takes the item out of its scene, then the storage is released. -/
def deleteItem (w : World) (p : Ptr) : Option World :=
  match w.heap p with
  | none => none
  | some _ =>
    some { w with heap := Function.update w.heap p none
                  scene := w.scene.filter (fun q => q != p) }

/-- Loop of `CCircleStorage::clear`. -/
def clearLoop : World → List Ptr → Option World
  | w, [] => some w
  | w, circ :: rest =>
    match deleteItem w circ with
    | none => none
    | some w1 => clearLoop w1 rest

/-- Method `CCircleStorage::clear`. -/
def clear (w : World) : Option World :=
  match clearLoop w w.circles with
  | none => none
  | some w1 => some { w1 with circles := [] }

/-- Method `CCircleStorage::getShape` (`none` is the null pointer). -/
def getShape (w : World) (index : Int) : Option Ptr :=
  if 0 ≤ index ∧ index < (w.circles.length : Int) then
    w.circles[index.toNat]?
  else none

/-- Method `CCircleStorage::deleteShape`. -/
def deleteShape (w : World) (index : Int) : Option World :=
  if 0 ≤ index ∧ index < (w.circles.length : Int) then
    match w.circles[index.toNat]? with
    | none => none
    | some p =>
      match deleteItem w p with
      | none => none
      | some w1 => some { w1 with circles := w1.circles.eraseIdx index.toNat }
  else some w

/-- Loop of `CCircleStorage::getSelectedCircles`, with the vector built so far. -/
def getSelectedLoop (h : Heap) : List Ptr → List Ptr → Option (List Ptr)
  | [], selectedCircles => some selectedCircles
  | circ :: rest, selectedCircles =>
    match h circ with
    | none => none
    | some c =>
      getSelectedLoop h rest
        (if c.isSelected then selectedCircles ++ [circ] else selectedCircles)

/-- Method `CCircleStorage::getSelectedCircles`. -/
def getSelectedCircles (w : World) : Option (List Ptr) :=
  getSelectedLoop w.heap w.circles []

/-- Loop of `CCircleStorage::deleteSelectedCircles`: `removeAll`, then
`circle->scene()->removeItem(circle)`, then `delete circle`. -/
def deleteSelectedLoop : World → List Ptr → Option World
  | w, [] => some w
  | w, circ :: rest =>
    let w1 := { w with circles := w.circles.filter (fun q => q != circ) }
    match w1.heap circ with
    | none => none
    | some _ =>
      if circ ∈ w1.scene then
        match deleteItem { w1 with scene := w1.scene.filter (fun q => q != circ) } circ with
        | none => none
        | some w2 => deleteSelectedLoop w2 rest
      else none

/-- Method `CCircleStorage::deleteSelectedCircles`. -/
def deleteSelectedCircles (w : World) : Option World :=
  match getSelectedCircles w with
  | none => none
  | some selected => deleteSelectedLoop w selected

/-- Apply a member function to the object at `p`. -/
def Heap.call (h : Heap) (p : Ptr) (f : CCircle → CCircle) : Option Heap :=
  match h p with
  | none => none
  | some c => some (Function.update h p (some (f c)))

/-- Method `CircleView::addCircle`; `circ` is the address returned by `new`. The
differences `pos.x() - 50` and `pos.y() - 50` are taken exactly. -/
def addCircle (w : World) (circ : Ptr) (pos : QPointF) : World :=
  let w1 := { w with heap := Function.update w.heap circ
                        (some (CCircle.construct (pos.x - 50) (pos.y - 50) 100)) }
  let w2 := { w1 with scene := w1.scene ++ [circ] }
  add w2 circ

/-- Qt `QGraphicsScene::items(scenePos)`: the items whose shape contains the
point, topmost (most recently added) first. -/
def sceneItems (qt : Toolkit) (w : World) (scenePos : QPointF) : List Ptr :=
  w.scene.reverse.filter (fun p =>
    match w.heap p with
    | some c => c.isCursorFocused qt scenePos
    | none => false)

/-- Inner loop of `CircleView::selectCircles` over the selected circles. -/
def collisionLoop (qt : Toolkit) (circ : Ptr) : Heap → List Ptr → Option Heap
  | h, [] => some h
  | h, other :: rest =>
    match h circ, h other with
    | some c, some o =>
      if qt.collidesWithItem c o then
        collisionLoop qt circ (Function.update h other (some (o.setSelected true))) rest
      else collisionLoop qt circ h rest
    | _, _ => none

/-- Outer loop of `CircleView::selectCircles`. -/
def selectLoop (qt : Toolkit) (scenePos : QPointF) (single : Bool) :
    World → List Ptr → Option World
  | w, [] => some w
  | w, item :: rest =>
    match w.heap item with
    | none => none
    | some c =>
      if c.isCursorFocused qt scenePos then
        let w1 := { w with heap := Function.update w.heap item (some (c.setSelected true)) }
        if single then some w1
        else
          match getSelectedCircles w1 with
          | none => none
          | some others =>
            match collisionLoop qt item w1.heap others with
            | none => none
            | some h2 => selectLoop qt scenePos single { w1 with heap := h2 } rest
      else selectLoop qt scenePos single w rest

/-- Method `CircleView::selectCircles`. -/
def selectCircles (qt : Toolkit) (w : World) (scenePos : QPointF) (single : Bool) :
    Option World :=
  selectLoop qt scenePos single w (sceneItems qt w scenePos)

/-- Loop that calls one member function on every circle of a vector. -/
def forEachCircle (f : CCircle → CCircle) : Heap → List Ptr → Option Heap
  | h, [] => some h
  | h, circ :: rest =>
    match h.call circ f with
    | none => none
    | some h1 => forEachCircle f h1 rest

/-- Method `CircleView::moveSelectedCircles`. -/
def moveSelectedCircles (w : World) (delta : QPointF) : Option World :=
  match getSelectedCircles w with
  | none => none
  | some selected =>
    match forEachCircle (fun c => c.moveBy delta.x delta.y) w.heap selected with
    | none => none
    | some h => some { w with heap := h }

/-- Method `CircleView::deselectAll`. -/
def deselectAll (w : World) : Option World :=
  match getSelectedCircles w with
  | none => none
  | some selected =>
    match forEachCircle (fun c => c.setSelected false) w.heap selected with
    | none => none
    | some h => some { w with heap := h }

/-- Mouse buttons that the handlers distinguish. -/
inductive MouseButton where
  | left
  | right
  | other
deriving DecidableEq

/-- Handler `CircleView::mousePressEvent` for a press of `button` at scene point
`scenePos` with `controlPressed`; `fresh` is the address that `new` returns
when the right button creates a circ. The base-class call at the end does not
touch the modelled state. -/
def mousePressEvent (qt : Toolkit) (w : World) (button : MouseButton) (controlPressed : Bool)
    (scenePos : QPointF) (fresh : Ptr) : Option World :=
  let w1 := if button = MouseButton.right then addCircle w fresh scenePos else w
  if button = MouseButton.left then
    match (if !controlPressed then deselectAll w1 else some w1) with
    | none => none
    | some w2 =>
      match selectCircles qt w2 scenePos false with
      | none => none
      | some w3 => some { w3 with lastMousePos := scenePos }
  else some w1

/-- Handler `CircleView::mouseMoveEvent` for a move to scene point `scenePos`;
`leftHeld` is `event->buttons() & Qt::LeftButton`. -/
def mouseMoveEvent (w : World) (leftHeld : Bool) (scenePos : QPointF) : Option World :=
  if leftHeld then
    let delta : QPointF :=
      { x := scenePos.x - w.lastMousePos.x, y := scenePos.y - w.lastMousePos.y }
    match moveSelectedCircles w delta with
    | none => none
    | some w1 => some { w1 with lastMousePos := scenePos }
  else some w

/-- A drag: the move events delivered one after the other with the left button
held. -/
def dragSequence : World → List QPointF → Option World
  | w, [] => some w
  | w, p :: rest =>
    match mouseMoveEvent w true p with
    | none => none
    | some w1 => dragSequence w1 rest

/-- The procedure `selectCircles` with the loop over `getSelectedCircles()`
removed (outer loop only). -/
def selectLoopWithoutCollision (qt : Toolkit) (scenePos : QPointF) (single : Bool) :
    World → List Ptr → Option World
  | w, [] => some w
  | w, item :: rest =>
    match w.heap item with
    | none => none
    | some c =>
      if c.isCursorFocused qt scenePos then
        let w1 := { w with heap := Function.update w.heap item (some (c.setSelected true)) }
        if single then some w1
        else selectLoopWithoutCollision qt scenePos single w1 rest
      else selectLoopWithoutCollision qt scenePos single w rest

/-- The procedure `selectCircles` without collision propagation. -/
def selectCirclesWithoutCollision (qt : Toolkit) (w : World) (scenePos : QPointF)
    (single : Bool) : Option World :=
  selectLoopWithoutCollision qt scenePos single w (sceneItems qt w scenePos)

/-- Well-formed program state: the store has no duplicate entry, every item of
the scene is a live object, and every stored circle is in the scene. -/
def World.wellFormed (w : World) : Prop :=
  w.circles.Nodup ∧ (∀ p ∈ w.scene, (w.heap p).isSome = true) ∧ (∀ p ∈ w.circles, p ∈ w.scene)

instance (w : World) : Decidable w.wellFormed := by
  unfold World.wellFormed
  infer_instance

/-- Handler `CircleView::keyPressEvent`; `isDelete` is
`event->key() == Qt::Key_Delete`. -/
def keyPressEvent (w : World) (isDelete : Bool) : Option World :=
  if isDelete then deleteSelectedCircles w else some w

/-- State at program start: nothing allocated, empty store, empty scene. -/
def World.initial : World :=
  { heap := fun _ => none, circles := [], scene := [], lastMousePos := { x := 0, y := 0 } }

/-! ## The drag step in binary64 arithmetic

`qreal` is `double`. The definitions above compute with exact rationals; the
following ones repeat the drag step with every arithmetic result rounded as the
machine rounds it. -/

/-- Rounding of a rational to the nearest integer, ties to the even one. -/
def roundHalfEven (s : ℚ) : Int :=
  if s - ⌊s⌋ < 1 / 2 then ⌊s⌋
  else if 1 / 2 < s - ⌊s⌋ then ⌊s⌋ + 1
  else if ⌊s⌋ % 2 = 0 then ⌊s⌋ else ⌊s⌋ + 1

/-- IEEE 754 binary64 rounding (to nearest, ties to even) of the exact result `q`
of an arithmetic operation: with `2 ^ e ≤ |q| < 2 ^ (e + 1)` the result is the
multiple of `2 ^ (max e (-1022) - 52)` nearest to `q`. Results beyond the largest
finite `double` are outside the model. -/
def roundToDouble (q : ℚ) : ℚ :=
  if q = 0 then 0
  else
    (roundHalfEven (q / 2 ^ (max (Int.log 2 |q|) (-1022) - 52)) : ℚ)
      * 2 ^ (max (Int.log 2 |q|) (-1022) - 52)

/-- Qt `QGraphicsItem::moveBy(dx, dy)` with the two sums `pos().x() + dx` and
`pos().y() + dy` rounded to `double`. -/
def CCircle.moveByDouble (c : CCircle) (dx dy : ℚ) : CCircle :=
  { c with pos := { x := roundToDouble (c.pos.x + dx), y := roundToDouble (c.pos.y + dy) } }

/-- Method `CircleView::moveSelectedCircles` in `double` arithmetic. -/
def moveSelectedCirclesDouble (w : World) (delta : QPointF) : Option World :=
  match getSelectedCircles w with
  | none => none
  | some selected =>
    match forEachCircle (fun c => c.moveByDouble delta.x delta.y) w.heap selected with
    | none => none
    | some h => some { w with heap := h }

/-- Handler `CircleView::mouseMoveEvent` in `double` arithmetic: the two
differences of `mapToScene(event->pos()) - lastMousePos` are rounded. -/
def mouseMoveEventDouble (w : World) (leftHeld : Bool) (scenePos : QPointF) : Option World :=
  if leftHeld then
    let delta : QPointF :=
      { x := roundToDouble (scenePos.x - w.lastMousePos.x),
        y := roundToDouble (scenePos.y - w.lastMousePos.y) }
    match moveSelectedCirclesDouble w delta with
    | none => none
    | some w1 => some { w1 with lastMousePos := scenePos }
  else some w

/-! ## Concrete states used for evaluation -/

/-- Circle `A`: created by a right-click at `(50, 50)`, not selected. -/
def circleA : CCircle :=
  CCircle.construct 0 0 100

/-- Circle `B`: created by a right-click at `(100, 50)`, selected. -/
def circleB : CCircle :=
  (CCircle.construct 50 0 100).setSelected true

/-- Circle `C`: created by a right-click at `(350, 50)`, not selected. -/
def circleC : CCircle :=
  CCircle.construct 300 0 100

/-- Two overlapping circles: `A` (address 1, not selected) and `B` (address 2,
selected). -/
def overlapWorld : World :=
  { heap := fun p => if p = 1 then some circleA else if p = 2 then some circleB else none
    circles := [1, 2]
    scene := [1, 2]
    lastMousePos := { x := 0, y := 0 } }

/-- Three circles at addresses 1, 2, 3: the first two selected, the third not. -/
def threeWorld : World :=
  { heap := fun p =>
      if p = 1 then some (circleA.setSelected true)
      else if p = 2 then some circleB
      else if p = 3 then some circleC
      else none
    circles := [1, 2, 3]
    scene := [1, 2, 3]
    lastMousePos := { x := 0, y := 0 } }

/-- The `double` nearest to `0.2`, which is `3602879701896397 / 2 ^ 54`. -/
def double02 : ℚ :=
  3602879701896397 / 18014398509481984

/-- The `double` nearest to `0.9`, which is `8106479329266893 / 2 ^ 53`. -/
def double09 : ℚ :=
  8106479329266893 / 9007199254740992

/-- One selected circle (address 1, created by a right-click at `(0, 0)`) after
a left-click at `(0, 0)`: item position `(0, 0)`, anchor `(0, 0)`. -/
def pressedWorld : World :=
  { heap := fun p =>
      if p = 1 then some ((CCircle.construct (-50) (-50) 100).setSelected true) else none
    circles := [1]
    scene := [1]
    lastMousePos := { x := 0, y := 0 } }

/-- One selected circle (address 1, created by a right-click at `(0, 0)`) in the
middle of a drag: it was pressed at `(0, 0)` and dragged to `(0.2, 0)`, so its
item position and the anchor are both `(0.2, 0)`. -/
def driftWorld : World :=
  { heap := fun p =>
      if p = 1 then
        some { (CCircle.construct (-50) (-50) 100) with
          selected := true, pos := { x := double02, y := 0 } }
      else none
    circles := [1]
    scene := [1]
    lastMousePos := { x := double02, y := 0 } }

/-! ## Elementary facts about the embedded operations -/

theorem setSelected_of_selected (c : CCircle) (hc : c.selected = true) :
    c.setSelected true = c := by
  cases c
  simp_all [CCircle.setSelected]

theorem setSelected_of_unselected (c : CCircle) (hc : c.selected = false) :
    c.setSelected false = c := by
  cases c
  simp_all [CCircle.setSelected]

theorem moveBy_zero (c : CCircle) : c.moveBy 0 0 = c := by
  cases c
  simp [CCircle.moveBy]

theorem moveBy_moveBy (c : CCircle) (a b a1 b1 : ℚ) :
    (c.moveBy a b).moveBy a1 b1 = c.moveBy (a + a1) (b + b1) := by
  cases c
  simp [CCircle.moveBy, add_assoc]

theorem selectedAt_of_eq_some {h : Heap} {p : Ptr} {c : CCircle} (hp : h p = some c) :
    h.selectedAt p = c.selected := by
  simp [Heap.selectedAt, hp, CCircle.isSelected]

theorem eq_some_of_selectedAt {h : Heap} {p : Ptr} (hp : h.selectedAt p = true) :
    ∃ c, h p = some c ∧ c.selected = true := by
  unfold Heap.selectedAt at hp
  cases hc : h p with
  | none => simp [hc] at hp
  | some c => exact ⟨c, rfl, by simpa [hc, CCircle.isSelected] using hp⟩

theorem getSelectedLoop_eq (h : Heap) :
    ∀ (l acc : List Ptr), (∀ p ∈ l, (h p).isSome = true) →
      getSelectedLoop h l acc = some (acc ++ l.filter (fun p => h.selectedAt p)) := by
  intro l
  induction l with
  | nil => intro acc _; simp [getSelectedLoop]
  | cons p rest ih =>
    intro acc hl
    have hp : (h p).isSome = true := hl p (List.mem_cons_self _ _)
    obtain ⟨c, hc⟩ := Option.isSome_iff_exists.mp hp
    have hrest : ∀ q ∈ rest, (h q).isSome = true := fun q hq => hl q (List.mem_cons_of_mem _ hq)
    simp only [getSelectedLoop, hc]
    rw [ih _ hrest]
    by_cases hs : c.selected = true
    · simp [List.filter_cons, selectedAt_of_eq_some hc, hs, CCircle.isSelected]
    · simp [List.filter_cons, selectedAt_of_eq_some hc, hs, CCircle.isSelected]

theorem World.wellFormed.alive {w : World} (hw : w.wellFormed) :
    ∀ p ∈ w.circles, (w.heap p).isSome = true :=
  fun p hp => hw.2.1 p (hw.2.2 p hp)

theorem getSelectedCircles_eq (w : World) (hl : ∀ p ∈ w.circles, (w.heap p).isSome = true) :
    getSelectedCircles w = some (w.circles.filter (fun p => w.heap.selectedAt p)) := by
  simp [getSelectedCircles, getSelectedLoop_eq w.heap w.circles [] hl]

theorem forEachCircle_spec (f : CCircle → CCircle) :
    ∀ (l : List Ptr) (h : Heap), l.Nodup → (∀ p ∈ l, (h p).isSome = true) →
      ∃ h1, forEachCircle f h l = some h1 ∧
        ∀ q, h1 q = if q ∈ l then (h q).map f else h q := by
  intro l
  induction l with
  | nil => intro h _ _; exact ⟨h, rfl, by simp⟩
  | cons p rest ih =>
    intro h hnd hl
    have hp : (h p).isSome = true := hl p (List.mem_cons_self _ _)
    obtain ⟨c, hc⟩ := Option.isSome_iff_exists.mp hp
    have hnot : p ∉ rest := (List.nodup_cons.mp hnd).1
    have hrest : ∀ q ∈ rest, (Function.update h p (some (f c)) q).isSome = true := by
      intro q hq
      have hne : q ≠ p := fun e => hnot (e ▸ hq)
      simpa [Function.update_noteq hne] using hl q (List.mem_cons_of_mem _ hq)
    obtain ⟨h1, he, hs⟩ := ih (Function.update h p (some (f c))) (List.nodup_cons.mp hnd).2 hrest
    refine ⟨h1, by simp [forEachCircle, Heap.call, hc, he], ?_⟩
    intro q
    rw [hs q]
    by_cases hqp : q = p
    · subst hqp
      simp [hnot, hc]
    · simp [hqp, Function.update_noteq hqp]

theorem forEachSelected_spec (f : CCircle → CCircle) (w : World) (hw : w.wellFormed) :
    ∃ h1, forEachCircle f w.heap (w.circles.filter (fun p => w.heap.selectedAt p)) = some h1 ∧
      ∀ q, h1 q = if q ∈ w.circles ∧ w.heap.selectedAt q = true then (w.heap q).map f
        else w.heap q := by
  obtain ⟨h1, he, hs⟩ := forEachCircle_spec f (w.circles.filter (fun p => w.heap.selectedAt p))
    w.heap (hw.1.filter _) (fun p hp => hw.alive p (List.mem_filter.mp hp).1)
  refine ⟨h1, he, ?_⟩
  intro q
  rw [hs q]
  simp [List.mem_filter]

theorem moveSelectedCircles_spec (w : World) (hw : w.wellFormed) (delta : QPointF) :
    ∃ w1, moveSelectedCircles w delta = some w1 ∧ w1.circles = w.circles ∧
      w1.scene = w.scene ∧ w1.lastMousePos = w.lastMousePos ∧
      ∀ q, w1.heap q =
        if q ∈ w.circles ∧ w.heap.selectedAt q = true then
          (w.heap q).map (fun c => c.moveBy delta.x delta.y)
        else w.heap q := by
  obtain ⟨h1, he, hs⟩ := forEachSelected_spec (fun c => c.moveBy delta.x delta.y) w hw
  exact ⟨{ w with heap := h1 },
    by simp [moveSelectedCircles, getSelectedCircles_eq w hw.alive, he], rfl, rfl, rfl, hs⟩

theorem deselectAll_spec (w : World) (hw : w.wellFormed) :
    ∃ w1, deselectAll w = some w1 ∧ w1.circles = w.circles ∧
      w1.scene = w.scene ∧ w1.lastMousePos = w.lastMousePos ∧
      ∀ q, w1.heap q =
        if q ∈ w.circles then (w.heap q).map (fun c => c.setSelected false) else w.heap q := by
  obtain ⟨h1, he, hs⟩ := forEachSelected_spec (fun c => c.setSelected false) w hw
  refine ⟨{ w with heap := h1 },
    by simp [deselectAll, getSelectedCircles_eq w hw.alive, he], rfl, rfl, rfl, ?_⟩
  intro q
  show h1 q = _
  rw [hs q]
  by_cases hq : q ∈ w.circles
  · cases hc : w.heap q with
    | none => simp [hq, hc]
    | some c =>
      by_cases hsel : c.selected = true
      · simp [hq, hc, selectedAt_of_eq_some hc, hsel]
      · have hf : c.selected = false := by simpa using hsel
        simp [hq, hc, selectedAt_of_eq_some hc, hf, setSelected_of_unselected c hf]
  · simp [hq]

/-- A heap that has live objects at the same addresses keeps a state
well-formed. -/
theorem wellFormed_of_heap (w w1 : World) (hw : w.wellFormed) (hc : w1.circles = w.circles)
    (hs : w1.scene = w.scene) (hh : ∀ q, (w1.heap q).isSome = (w.heap q).isSome) :
    w1.wellFormed := by
  refine ⟨hc ▸ hw.1, ?_, ?_⟩
  · intro p hp
    rw [hh p]
    exact hw.2.1 p (hs ▸ hp)
  · intro p hp
    rw [hs]
    exact hw.2.2 p (hc ▸ hp)

theorem mouseMoveEvent_spec (w : World) (hw : w.wellFormed) (scenePos : QPointF) :
    ∃ w1, mouseMoveEvent w true scenePos = some w1 ∧ w1.wellFormed ∧
      w1.circles = w.circles ∧ w1.scene = w.scene ∧ w1.lastMousePos = scenePos ∧
      ∀ q, w1.heap q =
        if q ∈ w.circles ∧ w.heap.selectedAt q = true then
          (w.heap q).map (fun c =>
            c.moveBy (scenePos.x - w.lastMousePos.x) (scenePos.y - w.lastMousePos.y))
        else w.heap q := by
  obtain ⟨w1, he, hc, hs, _, hh⟩ := moveSelectedCircles_spec w hw
    { x := scenePos.x - w.lastMousePos.x, y := scenePos.y - w.lastMousePos.y }
  refine ⟨{ w1 with lastMousePos := scenePos }, by simp [mouseMoveEvent, he], ?_, hc, hs, rfl, hh⟩
  apply wellFormed_of_heap w _ hw hc hs
  intro q
  show (w1.heap q).isSome = _
  rw [hh q]
  split
  · cases w.heap q <;> simp
  · rfl

theorem selectedAt_map_moveBy (h : Heap) (q : Ptr) (a b : ℚ) (h1 : Heap)
    (hq : h1 q = (h q).map (fun c => c.moveBy a b)) : h1.selectedAt q = h.selectedAt q := by
  unfold Heap.selectedAt
  rw [hq]
  cases h q <;> simp [CCircle.moveBy, CCircle.isSelected]

theorem dragSequence_spec :
    ∀ (ps : List QPointF) (w : World), w.wellFormed →
      ∃ w1, dragSequence w ps = some w1 ∧ w1.wellFormed ∧
        w1.circles = w.circles ∧ w1.scene = w.scene ∧
        w1.lastMousePos = ps.getLast?.getD w.lastMousePos ∧
        ∀ q, w1.heap q =
          if q ∈ w.circles ∧ w.heap.selectedAt q = true then
            (w.heap q).map (fun c =>
              c.moveBy ((ps.getLast?.getD w.lastMousePos).x - w.lastMousePos.x)
                ((ps.getLast?.getD w.lastMousePos).y - w.lastMousePos.y))
          else w.heap q := by
  intro ps
  induction ps with
  | nil =>
    intro w hw
    refine ⟨w, rfl, hw, rfl, rfl, rfl, ?_⟩
    intro q
    cases hc : w.heap q <;> simp [moveBy_zero]
  | cons p rest ih =>
    intro w hw
    obtain ⟨w1, he1, hw1, hc1, hs1, hl1, hh1⟩ := mouseMoveEvent_spec w hw p
    obtain ⟨w2, he2, hw2, hc2, hs2, hl2, hh2⟩ := ih w1 hw1
    have hlast : (p :: rest).getLast?.getD w.lastMousePos = rest.getLast?.getD p := by
      simp [List.getLast?_cons]
    refine ⟨w2, by simp [dragSequence, he1, he2], hw2, hc2.trans hc1, hs2.trans hs1, ?_, ?_⟩
    · rw [hl2, hl1, hlast]
    · intro q
      rw [hh2 q, hlast, hc1, hl1]
      by_cases hq : q ∈ w.circles ∧ w.heap.selectedAt q = true
      · have h1q := hh1 q
        rw [if_pos hq] at h1q
        have hsel : w1.heap.selectedAt q = true := by
          rw [selectedAt_map_moveBy w.heap q _ _ w1.heap h1q]
          exact hq.2
        rw [if_pos ⟨hq.1, hsel⟩, if_pos hq, h1q]
        cases w.heap q with
        | none => rfl
        | some c =>
          simp only [Option.map_some']
          rw [moveBy_moveBy]
          congr 2 <;> ring
      · have h1q := hh1 q
        rw [if_neg hq] at h1q
        have hsel : ¬ (q ∈ w.circles ∧ w1.heap.selectedAt q = true) := by
          intro hcon
          apply hq
          refine ⟨hcon.1, ?_⟩
          have : w1.heap.selectedAt q = w.heap.selectedAt q := by
            unfold Heap.selectedAt
            rw [h1q]
          rw [← this]
          exact hcon.2
        rw [if_neg hsel, if_neg hq, h1q]

theorem collisionLoop_selected (qt : Toolkit) (circ : Ptr) :
    ∀ (others : List Ptr) (h : Heap), (h circ).isSome = true →
      (∀ o ∈ others, h.selectedAt o = true) → collisionLoop qt circ h others = some h := by
  intro others
  induction others with
  | nil => intro h _ _; rfl
  | cons other rest ih =>
    intro h hcirc hall
    obtain ⟨c, hc⟩ := Option.isSome_iff_exists.mp hcirc
    obtain ⟨o, ho, hsel⟩ := eq_some_of_selectedAt (hall other (List.mem_cons_self _ _))
    have hrest : ∀ q ∈ rest, h.selectedAt q = true :=
      fun q hq => hall q (List.mem_cons_of_mem _ hq)
    have hupd : Function.update h other (some (o.setSelected true)) = h := by
      rw [setSelected_of_selected o hsel, ← ho]
      exact Function.update_eq_self other h
    simp only [collisionLoop, hc, ho, hupd, ih h hcirc hrest, ite_self]

theorem isSome_update_some (h : Heap) (p : Ptr) (c : CCircle) (q : Ptr)
    (hq : (h q).isSome = true) : (Function.update h p (some c) q).isSome = true := by
  by_cases hqp : q = p
  · subst hqp
    simp
  · simpa [Function.update_noteq hqp] using hq

theorem selectLoop_eq_withoutCollision (qt : Toolkit) (scenePos : QPointF) (single : Bool) :
    ∀ (items : List Ptr) (w : World), (∀ p ∈ w.circles, (w.heap p).isSome = true) →
      selectLoop qt scenePos single w items
        = selectLoopWithoutCollision qt scenePos single w items := by
  intro items
  induction items with
  | nil => intro w _; rfl
  | cons item rest ih =>
    intro w hw
    cases hc : w.heap item with
    | none => simp [selectLoop, selectLoopWithoutCollision, hc]
    | some c =>
      by_cases hf : c.isCursorFocused qt scenePos = true
      · cases single with
        | true => simp [selectLoop, selectLoopWithoutCollision, hc, hf]
        | false =>
          have hw1 : ∀ p ∈ w.circles,
              (Function.update w.heap item (some (c.setSelected true)) p).isSome = true :=
            fun p hp => isSome_update_some _ _ _ _ (hw p hp)
          have hsel := getSelectedCircles_eq
            { w with heap := Function.update w.heap item (some (c.setSelected true)) } hw1
          have hcol := collisionLoop_selected qt item
            (w.circles.filter (fun p =>
              Heap.selectedAt (Function.update w.heap item (some (c.setSelected true))) p))
            (Function.update w.heap item (some (c.setSelected true)))
            (by simp)
            (fun o ho => by simpa using (List.mem_filter.mp ho).2)
          simp only [selectLoop, selectLoopWithoutCollision, hc, hf, if_true, hsel, hcol]
          exact ih _ hw1
      · simp only [selectLoop, selectLoopWithoutCollision, hc, hf, if_false]
        exact ih w hw

theorem selectLoopWithoutCollision_spec (qt : Toolkit) (scenePos : QPointF) :
    ∀ (items : List Ptr) (w : World), (∀ p ∈ items, (w.heap p).isSome = true) →
      ∃ w1, selectLoopWithoutCollision qt scenePos false w items = some w1 ∧
        w1.circles = w.circles ∧ w1.scene = w.scene ∧ w1.lastMousePos = w.lastMousePos ∧
        ∀ q, w1.heap q = (w.heap q).map (fun c =>
          if q ∈ items ∧ c.isCursorFocused qt scenePos = true then c.setSelected true else c) := by
  intro items
  induction items with
  | nil =>
    intro w _
    refine ⟨w, rfl, rfl, rfl, rfl, ?_⟩
    intro q
    cases w.heap q <;> simp
  | cons item rest ih =>
    intro w hal
    obtain ⟨c, hc⟩ := Option.isSome_iff_exists.mp (hal item (List.mem_cons_self _ _))
    have hrest : ∀ p ∈ rest, (w.heap p).isSome = true :=
      fun p hp => hal p (List.mem_cons_of_mem _ hp)
    by_cases hf : c.isCursorFocused qt scenePos = true
    · obtain ⟨w1, he, hci, hsc, hlm, hh⟩ :=
        ih { w with heap := Function.update w.heap item (some (c.setSelected true)) }
          (fun p hp => isSome_update_some _ _ _ _ (hrest p hp))
      refine ⟨w1, by simp [selectLoopWithoutCollision, hc, hf, he], hci, hsc, hlm, ?_⟩
      intro q
      rw [hh q]
      by_cases hqi : q = item
      · subst hqi
        have h1 : (c.setSelected true).isCursorFocused qt scenePos = true := hf
        have h2 : (c.setSelected true).setSelected true = c.setSelected true := rfl
        simp [hc, hf, h1, h2]
      · simp [Function.update_noteq hqi, hqi]
    · obtain ⟨w1, he, hci, hsc, hlm, hh⟩ := ih w hrest
      refine ⟨w1, by simp [selectLoopWithoutCollision, hc, hf, he], hci, hsc, hlm, ?_⟩
      intro q
      rw [hh q]
      by_cases hqi : q = item
      · subst hqi
        simp [hc, hf]
      · simp [hqi]

theorem mem_sceneItems (qt : Toolkit) (w : World) (scenePos : QPointF) (q : Ptr) :
    q ∈ sceneItems qt w scenePos ↔
      q ∈ w.scene ∧ ∃ c, w.heap q = some c ∧ c.isCursorFocused qt scenePos = true := by
  unfold sceneItems
  rw [List.mem_filter, List.mem_reverse]
  cases hc : w.heap q <;> simp

theorem selectCircles_spec (qt : Toolkit) (w : World) (hw : w.wellFormed) (scenePos : QPointF) :
    ∃ w1, selectCircles qt w scenePos false = some w1 ∧ w1.wellFormed ∧
      w1.circles = w.circles ∧ w1.scene = w.scene ∧ w1.lastMousePos = w.lastMousePos ∧
      ∀ q, w1.heap q = (w.heap q).map (fun c =>
        if q ∈ w.scene ∧ c.isCursorFocused qt scenePos = true then c.setSelected true else c) := by
  have hitems : ∀ p ∈ sceneItems qt w scenePos, (w.heap p).isSome = true :=
    fun p hp => hw.2.1 p ((mem_sceneItems qt w scenePos p).mp hp).1
  obtain ⟨w1, he, hc, hs, hl, hh⟩ :=
    selectLoopWithoutCollision_spec qt scenePos (sceneItems qt w scenePos) w hitems
  have hheap : ∀ q, w1.heap q = (w.heap q).map (fun c =>
      if q ∈ w.scene ∧ c.isCursorFocused qt scenePos = true then c.setSelected true else c) := by
    intro q
    rw [hh q]
    cases hq : w.heap q with
    | none => rfl
    | some c =>
      simp only [Option.map_some', mem_sceneItems, hq, Option.some.injEq, exists_eq_left']
      by_cases hf : c.isCursorFocused qt scenePos = true
      · simp [hf]
      · simp [hf]
  refine ⟨w1, ?_, ?_, hc, hs, hl, hheap⟩
  · unfold selectCircles
    rw [selectLoop_eq_withoutCollision qt scenePos false _ w hw.alive]
    exact he
  · apply wellFormed_of_heap w w1 hw hc hs
    intro q
    rw [hheap q]
    cases w.heap q <;> simp

theorem mousePress_left_ctrl_spec (qt : Toolkit) (w : World) (hw : w.wellFormed)
    (scenePos : QPointF) (fresh : Ptr) :
    ∃ w1, mousePressEvent qt w MouseButton.left true scenePos fresh = some w1 ∧ w1.wellFormed ∧
      w1.circles = w.circles ∧ w1.scene = w.scene ∧ w1.lastMousePos = scenePos ∧
      ∀ q, w1.heap q = (w.heap q).map (fun c =>
        if q ∈ w.scene ∧ c.isCursorFocused qt scenePos = true then c.setSelected true else c) := by
  obtain ⟨w1, he, hw1, hc, hs, _, hh⟩ := selectCircles_spec qt w hw scenePos
  refine ⟨{ w1 with lastMousePos := scenePos }, ?_, ?_, hc, hs, rfl, hh⟩
  · simp [mousePressEvent, he]
  · exact wellFormed_of_heap w1 _ hw1 rfl rfl (fun _ => rfl)

theorem mousePress_left_plain_spec (qt : Toolkit) (w : World) (hw : w.wellFormed)
    (scenePos : QPointF) (fresh : Ptr) :
    ∃ w1, mousePressEvent qt w MouseButton.left false scenePos fresh = some w1 ∧ w1.wellFormed ∧
      w1.circles = w.circles ∧ w1.scene = w.scene ∧ w1.lastMousePos = scenePos ∧
      (∀ q ∈ w.circles, w1.heap q =
        (w.heap q).map (fun c => c.setSelected (c.isCursorFocused qt scenePos))) ∧
      (∀ q, q ∉ w.circles → w1.heap q = (w.heap q).map (fun c =>
        if q ∈ w.scene ∧ c.isCursorFocused qt scenePos = true then c.setSelected true else c)) := by
  obtain ⟨w1, he1, hc1, hs1, hl1, hh1⟩ := deselectAll_spec w hw
  have hw1 : w1.wellFormed := by
    apply wellFormed_of_heap w w1 hw hc1 hs1
    intro q
    rw [hh1 q]
    split
    · cases w.heap q <;> simp
    · rfl
  obtain ⟨w2, he2, hw2, hc2, hs2, _, hh2⟩ := selectCircles_spec qt w1 hw1 scenePos
  refine ⟨{ w2 with lastMousePos := scenePos }, ?_, ?_, hc2.trans hc1, hs2.trans hs1, rfl, ?_, ?_⟩
  · simp [mousePressEvent, he1, he2]
  · exact wellFormed_of_heap w2 _ hw2 rfl rfl (fun _ => rfl)
  · intro q hq
    show w2.heap q = _
    rw [hh2 q, hh1 q, if_pos hq, hs1]
    have hqs : q ∈ w.scene := hw.2.2 q hq
    cases w.heap q with
    | none => rfl
    | some c =>
      have h1 : (c.setSelected false).isCursorFocused qt scenePos
          = c.isCursorFocused qt scenePos := rfl
      have h2 : (c.setSelected false).setSelected true = c.setSelected true := rfl
      by_cases hf : c.isCursorFocused qt scenePos = true
      · simp [hqs, h1, h2, hf]
      · have hf0 : c.isCursorFocused qt scenePos = false := by simpa using hf
        simp [h1, hf0]
  · intro q hq
    show w2.heap q = _
    rw [hh2 q, hh1 q, if_neg hq, hs1]

theorem deleteSelectedLoop_spec :
    ∀ (l : List Ptr) (w : World), l.Nodup →
      (∀ p ∈ l, (w.heap p).isSome = true ∧ p ∈ w.scene) →
      ∃ w1, deleteSelectedLoop w l = some w1 ∧
        w1.circles = w.circles.filter (fun q => decide (q ∉ l)) ∧
        w1.scene = w.scene.filter (fun q => decide (q ∉ l)) ∧
        w1.lastMousePos = w.lastMousePos ∧
        ∀ q, w1.heap q = if q ∈ l then none else w.heap q := by
  intro l
  induction l with
  | nil => intro w _ _; exact ⟨w, rfl, by simp, by simp, rfl, by simp⟩
  | cons p rest ih =>
    intro w hnd hl
    obtain ⟨hpa, hps⟩ := hl p (List.mem_cons_self _ _)
    obtain ⟨c, hc⟩ := Option.isSome_iff_exists.mp hpa
    have hnot : p ∉ rest := (List.nodup_cons.mp hnd).1
    have hrest : ∀ q ∈ rest,
        (Function.update w.heap p none q).isSome = true ∧
          q ∈ (w.scene.filter (fun q => q != p)).filter (fun q => q != p) := by
      intro q hq
      have hne : q ≠ p := fun e => hnot (e ▸ hq)
      obtain ⟨hqa, hqs⟩ := hl q (List.mem_cons_of_mem _ hq)
      refine ⟨by simpa [Function.update_noteq hne] using hqa, ?_⟩
      simp [List.mem_filter, hqs, hne]
    obtain ⟨w1, he, hci, hsc, hlm, hh⟩ := ih
      { heap := Function.update w.heap p none
        circles := w.circles.filter (fun q => q != p)
        scene := (w.scene.filter (fun q => q != p)).filter (fun q => q != p)
        lastMousePos := w.lastMousePos } (List.nodup_cons.mp hnd).2 hrest
    refine ⟨w1, ?_, ?_, ?_, hlm, ?_⟩
    · simp only [deleteSelectedLoop, deleteItem, hc, hps, if_true]
      exact he
    · rw [hci]
      simp only [List.filter_filter]
      apply List.filter_congr
      intro x _
      by_cases hx : x = p <;> by_cases hr : x ∈ rest <;> simp [hx, hr]
    · rw [hsc]
      simp only [List.filter_filter]
      apply List.filter_congr
      intro x _
      by_cases hx : x = p <;> by_cases hr : x ∈ rest <;> simp [hx, hr]
    · intro q
      rw [hh q]
      by_cases hqp : q = p
      · subst hqp
        simp
      · simp [hqp, Function.update_noteq hqp]

theorem deleteSelectedCircles_spec (w : World) (hw : w.wellFormed) :
    ∃ w1, deleteSelectedCircles w = some w1 ∧ w1.wellFormed ∧
      w1.circles = w.circles.filter (fun p => !(w.heap.selectedAt p)) ∧
      w1.lastMousePos = w.lastMousePos ∧
      ∀ q, w1.heap q = if q ∈ w.circles ∧ w.heap.selectedAt q = true then none else w.heap q := by
  obtain ⟨w1, he, hc, hs, hl, hh⟩ := deleteSelectedLoop_spec
    (w.circles.filter (fun p => w.heap.selectedAt p)) w (hw.1.filter _)
    (fun p hp => ⟨hw.alive p (List.mem_filter.mp hp).1, hw.2.2 p (List.mem_filter.mp hp).1⟩)
  have hcirc : w1.circles = w.circles.filter (fun p => !(w.heap.selectedAt p)) := by
    rw [hc]
    apply List.filter_congr
    intro x hx
    simp [List.mem_filter, hx]
  have hheap : ∀ q, w1.heap q =
      if q ∈ w.circles ∧ w.heap.selectedAt q = true then none else w.heap q := by
    intro q
    rw [hh q]
    simp [List.mem_filter]
  refine ⟨w1, ?_, ?_, hcirc, hl, hheap⟩
  · simp [deleteSelectedCircles, getSelectedCircles_eq w hw.alive, he]
  · refine ⟨?_, ?_, ?_⟩
    · rw [hcirc]
      exact hw.1.filter _
    · intro p hp
      rw [hs] at hp
      obtain ⟨hps, hpn⟩ := List.mem_filter.mp hp
      rw [hh p]
      have hpn1 : p ∉ w.circles.filter (fun p => w.heap.selectedAt p) := of_decide_eq_true hpn
      rw [if_neg hpn1]
      exact hw.2.1 p hps
    · intro p hp
      rw [hcirc] at hp
      obtain ⟨hpc, hpn⟩ := List.mem_filter.mp hp
      rw [hs]
      refine List.mem_filter.mpr ⟨hw.2.2 p hpc, ?_⟩
      apply decide_eq_true
      intro hmem
      have hsel := (List.mem_filter.mp hmem).2
      simp [hsel] at hpn

theorem not_mem_eraseIdx_of_nodup (l : List Ptr) (i : Nat) (p : Ptr) (hnd : l.Nodup)
    (hp : l[i]? = some p) : p ∉ l.eraseIdx i := by
  intro hm
  obtain ⟨j, hj, hji, hjp⟩ := List.mem_eraseIdx_iff_getElem.mp hm
  obtain ⟨hi, hip⟩ := List.getElem?_eq_some.mp hp
  exact hji ((hnd.getElem_inj_iff).mp (hjp.trans hip.symm))

theorem deleteShape_outOfRange (w : World) (index : Int)
    (hi : index < 0 ∨ (w.circles.length : Int) ≤ index) : deleteShape w index = some w := by
  unfold deleteShape
  rw [if_neg]
  omega

theorem deleteShape_inRange_eq (w : World) (hal : ∀ p ∈ w.circles, (w.heap p).isSome = true)
    (index : Int) (h0 : 0 ≤ index) (h1 : index < (w.circles.length : Int)) :
    ∃ p, w.circles[index.toNat]? = some p ∧
      deleteShape w index = some
        { heap := Function.update w.heap p none
          circles := w.circles.eraseIdx index.toNat
          scene := w.scene.filter (fun q => q != p)
          lastMousePos := w.lastMousePos } := by
  have hlt : index.toNat < w.circles.length := by omega
  have hget : w.circles[index.toNat]? = some w.circles[index.toNat] :=
    List.getElem?_eq_getElem hlt
  obtain ⟨c, hc⟩ := Option.isSome_iff_exists.mp (hal _ (List.getElem_mem hlt))
  refine ⟨w.circles[index.toNat], hget, ?_⟩
  unfold deleteShape
  rw [if_pos ⟨h0, h1⟩]
  simp [hget, deleteItem, hc]

theorem deleteShape_inRange (w : World) (hw : w.wellFormed) (index : Int) (h0 : 0 ≤ index)
    (h1 : index < (w.circles.length : Int)) :
    ∃ w1 p, deleteShape w index = some w1 ∧ w.circles[index.toNat]? = some p ∧ w1.wellFormed ∧
      w1.circles = w.circles.eraseIdx index.toNat ∧
      w1.scene = w.scene.filter (fun q => q != p) ∧
      w1.lastMousePos = w.lastMousePos ∧
      ∀ q, w1.heap q = if q = p then none else w.heap q := by
  obtain ⟨p, hget, he⟩ := deleteShape_inRange_eq w hw.alive index h0 h1
  have hnot := not_mem_eraseIdx_of_nodup w.circles index.toNat p hw.1 hget
  refine ⟨_, p, he, hget, ?_, rfl, rfl, rfl, ?_⟩
  · refine ⟨hw.1.sublist (List.eraseIdx_sublist _ _), ?_, ?_⟩
    · intro q hq
      obtain ⟨hqs, hqp⟩ := List.mem_filter.mp hq
      have hne : q ≠ p := by simpa using hqp
      show (Function.update w.heap p none q).isSome = true
      rw [Function.update_noteq hne]
      exact hw.2.1 q hqs
    · intro q hq
      have hqc : q ∈ w.circles := (List.eraseIdx_sublist _ _).subset hq
      have hne : q ≠ p := fun e => hnot (e ▸ hq)
      exact List.mem_filter.mpr ⟨hw.2.2 q hqc, by simpa using hne⟩
  · intro q
    by_cases hq : q = p
    · rw [if_pos hq, hq]
      simp
    · rw [if_neg hq]
      exact Function.update_noteq hq none w.heap

theorem clearLoop_spec :
    ∀ (l : List Ptr) (w : World), l.Nodup → (∀ p ∈ l, (w.heap p).isSome = true) →
      ∃ w1, clearLoop w l = some w1 ∧ w1.circles = w.circles ∧
        w1.scene = w.scene.filter (fun q => decide (q ∉ l)) ∧
        w1.lastMousePos = w.lastMousePos ∧
        ∀ q, w1.heap q = if q ∈ l then none else w.heap q := by
  intro l
  induction l with
  | nil => intro w _ _; exact ⟨w, rfl, rfl, by simp, rfl, by simp⟩
  | cons p rest ih =>
    intro w hnd hl
    obtain ⟨c, hc⟩ := Option.isSome_iff_exists.mp (hl p (List.mem_cons_self _ _))
    have hnot : p ∉ rest := (List.nodup_cons.mp hnd).1
    have hrest : ∀ q ∈ rest, (Function.update w.heap p none q).isSome = true := by
      intro q hq
      have hne : q ≠ p := fun e => hnot (e ▸ hq)
      simpa [Function.update_noteq hne] using hl q (List.mem_cons_of_mem _ hq)
    obtain ⟨w1, he, hci, hsc, hlm, hh⟩ := ih
      { heap := Function.update w.heap p none
        circles := w.circles
        scene := w.scene.filter (fun q => q != p)
        lastMousePos := w.lastMousePos } (List.nodup_cons.mp hnd).2 hrest
    refine ⟨w1, ?_, hci, ?_, hlm, ?_⟩
    · simp only [clearLoop, deleteItem, hc]
      exact he
    · rw [hsc]
      simp only [List.filter_filter]
      apply List.filter_congr
      intro x _
      by_cases hx : x = p <;> by_cases hr : x ∈ rest <;> simp [hx, hr]
    · intro q
      rw [hh q]
      by_cases hqp : q = p
      · subst hqp
        simp
      · simp [hqp, Function.update_noteq hqp]

theorem clear_spec (w : World) (hw : w.wellFormed) :
    ∃ w1, clear w = some w1 ∧ w1.wellFormed ∧ w1.circles = [] ∧
      ∀ q, w1.heap q = if q ∈ w.circles then none else w.heap q := by
  obtain ⟨w1, he, _, hs, _, hh⟩ := clearLoop_spec w.circles w hw.1 hw.alive
  refine ⟨{ w1 with circles := [] }, by simp [clear, he], ?_, rfl, hh⟩
  refine ⟨List.nodup_nil, ?_, by simp⟩
  intro p hp
  have hp1 : p ∈ w1.scene := hp
  rw [hs] at hp1
  obtain ⟨hps, hpn⟩ := List.mem_filter.mp hp1
  show (w1.heap p).isSome = true
  rw [hh p, if_neg (of_decide_eq_true hpn)]
  exact hw.2.1 p hps

theorem addCircle_wellFormed (w : World) (hw : w.wellFormed) (fresh : Ptr) (pos : QPointF)
    (hfresh : w.heap fresh = none) : (addCircle w fresh pos).wellFormed := by
  have hns : fresh ∉ w.scene := by
    intro hm
    have := hw.2.1 fresh hm
    simp [hfresh] at this
  have hnc : fresh ∉ w.circles := fun hm => hns (hw.2.2 fresh hm)
  refine ⟨?_, ?_, ?_⟩
  · show (w.circles ++ [fresh]).Nodup
    exact List.Nodup.append hw.1 (List.nodup_singleton _) (by simpa using hnc)
  · intro p hp
    have hp1 : p ∈ w.scene ++ [fresh] := hp
    show (Function.update w.heap fresh _ p).isSome = true
    rcases List.mem_append.mp hp1 with h | h
    · exact isSome_update_some _ _ _ _ (hw.2.1 p h)
    · have : p = fresh := by simpa using h
      subst this
      simp
  · intro p hp
    have hp1 : p ∈ w.circles ++ [fresh] := hp
    show p ∈ w.scene ++ [fresh]
    rcases List.mem_append.mp hp1 with h | h
    · exact List.mem_append_left _ (hw.2.2 p h)
    · exact List.mem_append_right _ h

theorem overlapWorld_wellFormed : overlapWorld.wellFormed := by
  decide

theorem threeWorld_wellFormed : threeWorld.wellFormed := by
  decide

/-! ## Deleting the selected circles -/

/-- C1: on a well-formed state (store without duplicate entries, every entry a
live circle of the scene) `deleteSelectedCircles` returns; the store afterwards
holds exactly the circles whose `selected` flag was false, in their original
order; its size has dropped by the number of selected circles; and when no
circle is selected the store is unchanged. -/
theorem deleteSelectedCircles_keeps_unselected (w : World) (hw : w.wellFormed) :
    ∃ w1 selected, deleteSelectedCircles w = some w1 ∧ getSelectedCircles w = some selected ∧
      w1.circles = w.circles.filter (fun p => !(w.heap.selectedAt p)) ∧
      w1.circles.length + selected.length = w.circles.length ∧
      ((∀ p ∈ w.circles, w.heap.selectedAt p = false) → w1.circles = w.circles) := by
  obtain ⟨w1, he, _, hc, _, _⟩ := deleteSelectedCircles_spec w hw
  refine ⟨w1, _, he, getSelectedCircles_eq w hw.alive, hc, ?_, ?_⟩
  · rw [hc, ← List.countP_eq_length_filter, ← List.countP_eq_length_filter,
      List.length_eq_countP_add_countP (fun p => w.heap.selectedAt p) w.circles, Nat.add_comm]
    congr 1
    apply List.countP_congr
    intro x _
    simp
  · intro hall
    rw [hc]
    apply List.filter_eq_self.mpr
    intro p hp
    simp [hall p hp]

/-- C1, instance: with circles 1 and 2 selected and circle 3 not selected, only
circle 3 is left and the size drops from 3 by 2. -/
theorem deleteSelectedCircles_keeps_unselected_witness :
    threeWorld.wellFormed ∧
      ∃ w1 selected, deleteSelectedCircles threeWorld = some w1 ∧
        getSelectedCircles threeWorld = some selected ∧
        w1.circles = threeWorld.circles.filter (fun p => !(threeWorld.heap.selectedAt p)) ∧
        w1.circles.length + selected.length = threeWorld.circles.length ∧
        ((∀ p ∈ threeWorld.circles, threeWorld.heap.selectedAt p = false) →
          w1.circles = threeWorld.circles) :=
  ⟨by decide, deleteSelectedCircles_keeps_unselected threeWorld (by decide)⟩

/-- Evaluation on `threeWorld`: with circles 1 and 2 selected and circle 3 not,
the store `[1, 2, 3]` becomes `[3]`. -/
theorem deleteSelectedCircles_threeWorld :
    ∃ w1, deleteSelectedCircles threeWorld = some w1 ∧ w1.circles = [3] := by
  obtain ⟨w1, he, _, hc, _, _⟩ := deleteSelectedCircles_spec threeWorld threeWorld_wellFormed
  refine ⟨w1, he, ?_⟩
  rw [hc]
  decide

/-! ## Dragging -/

theorem World.eq_of_fields (w1 w2 : World) (hh : ∀ q, w1.heap q = w2.heap q)
    (hc : w1.circles = w2.circles) (hs : w1.scene = w2.scene)
    (hl : w1.lastMousePos = w2.lastMousePos) : w1 = w2 := by
  cases w1
  cases w2
  simp only [World.mk.injEq]
  exact ⟨funext hh, hc, hs, hl⟩

/-- What a heap described by "selected circles of the store are moved by
`(dx, dy)`" says about one stored circle. -/
theorem moved_circle (w : World) (hw : w.wellFormed) (h1 : Heap) (dx dy : ℚ)
    (hh : ∀ q, h1 q =
      if q ∈ w.circles ∧ w.heap.selectedAt q = true then
        (w.heap q).map (fun c => c.moveBy dx dy)
      else w.heap q) :
    ∀ p ∈ w.circles, ∃ c c1, w.heap p = some c ∧ h1 p = some c1 ∧
      c1.isSelected = c.isSelected ∧ c1.rect = c.rect ∧
      (c.isSelected = true →
        c1.pos = { x := c.pos.x + dx, y := c.pos.y + dy } ∧
        c1.sceneRect.center
          = { x := c.sceneRect.center.x + dx, y := c.sceneRect.center.y + dy }) ∧
      (c.isSelected = false → c1 = c) := by
  intro p hp
  obtain ⟨c, hc⟩ := Option.isSome_iff_exists.mp (hw.alive p hp)
  by_cases hsel : c.selected = true
  · refine ⟨c, c.moveBy dx dy, hc, ?_, rfl, rfl, ?_, ?_⟩
    · rw [hh p, if_pos ⟨hp, by rw [selectedAt_of_eq_some hc]; exact hsel⟩, hc]
      rfl
    · intro _
      refine ⟨rfl, ?_⟩
      simp only [CCircle.sceneRect, CCircle.moveBy, QRectF.center, QPointF.mk.injEq]
      constructor <;> ring
    · intro hf
      rw [CCircle.isSelected, hsel] at hf
      exact absurd hf (by simp)
  · have hf : c.selected = false := by simpa using hsel
    refine ⟨c, c, hc, ?_, rfl, rfl, ?_, fun _ => rfl⟩
    · rw [hh p, if_neg, hc]
      rw [selectedAt_of_eq_some hc, hf]
      simp
    · intro ht
      rw [CCircle.isSelected, hf] at ht
      exact absurd ht (by simp)

/-- The members `centerX`/`centerY` are written by the constructor only: in
`overlapWorld` circle 2 is selected, the anchor is `(0, 0)` and the pointer moves
to `(10, 5)`; after the drag step `getX` and `getY` of circle 2 return their old
values. -/
theorem drag_step_keeps_getX_getY :
    ∃ w1 c c1, mouseMoveEvent overlapWorld true { x := 10, y := 5 } = some w1 ∧
      overlapWorld.heap 2 = some c ∧ w1.heap 2 = some c1 ∧ c.isSelected = true ∧
      c1.getX = c.getX ∧ c1.getY = c.getY ∧
      ¬ (c1.getX = c.getX + (10 - overlapWorld.lastMousePos.x) ∧
         c1.getY = c.getY + (5 - overlapWorld.lastMousePos.y)) := by
  obtain ⟨w1, he, _, _, _, _, hh⟩ :=
    mouseMoveEvent_spec overlapWorld overlapWorld_wellFormed { x := 10, y := 5 }
  have h2 : w1.heap 2 = some (circleB.moveBy (10 - 0) (5 - 0)) := by
    rw [hh 2, if_pos ⟨by decide, by decide⟩]
    rfl
  refine ⟨w1, circleB, _, he, rfl, h2, rfl, rfl, rfl, ?_⟩
  intro hcon
  have hx := hcon.1
  simp [CCircle.getX, CCircle.moveBy, circleB, CCircle.setSelected, CCircle.construct,
    overlapWorld] at hx

/-- C2, amended: in exact arithmetic, on a well-formed state a move event to
`scenePos` with the left button held returns; with
`(dx, dy) = scenePos - lastMousePos` the centre of every selected circle of the
store (the centre of its rectangle in the scene, and its item position) has
moved by exactly `(dx, dy)`; every unselected circle is unchanged; no `selected`
flag and no ellipse rectangle changes; the store is the same list; and the
anchor `lastMousePos` is `scenePos`. -/
theorem drag_step_moves_selected (w : World) (hw : w.wellFormed) (scenePos : QPointF) :
    ∃ w1, mouseMoveEvent w true scenePos = some w1 ∧ w1.circles = w.circles ∧
      w1.lastMousePos = scenePos ∧
      ∀ p ∈ w.circles, ∃ c c1, w.heap p = some c ∧ w1.heap p = some c1 ∧
        c1.isSelected = c.isSelected ∧ c1.rect = c.rect ∧
        (c.isSelected = true →
          c1.pos = { x := c.pos.x + (scenePos.x - w.lastMousePos.x),
                     y := c.pos.y + (scenePos.y - w.lastMousePos.y) } ∧
          c1.sceneRect.center
            = { x := c.sceneRect.center.x + (scenePos.x - w.lastMousePos.x),
                y := c.sceneRect.center.y + (scenePos.y - w.lastMousePos.y) }) ∧
        (c.isSelected = false → c1 = c) := by
  obtain ⟨w1, he, _, hc, _, hl, hh⟩ := mouseMoveEvent_spec w hw scenePos
  exact ⟨w1, he, hc, hl, moved_circle w hw w1.heap _ _ hh⟩

/-- C2, amended, instance: the drag step from anchor `(0, 0)` to `(10, 5)` in
`overlapWorld`. -/
theorem drag_step_moves_selected_witness :
    overlapWorld.wellFormed ∧
      ∃ w1, mouseMoveEvent overlapWorld true { x := 10, y := 5 } = some w1 ∧
        w1.circles = overlapWorld.circles ∧ w1.lastMousePos = { x := 10, y := 5 } ∧
        ∀ p ∈ overlapWorld.circles, ∃ c c1, overlapWorld.heap p = some c ∧
          w1.heap p = some c1 ∧ c1.isSelected = c.isSelected ∧ c1.rect = c.rect ∧
          (c.isSelected = true →
            c1.pos = { x := c.pos.x + ((10 : ℚ) - overlapWorld.lastMousePos.x),
                       y := c.pos.y + ((5 : ℚ) - overlapWorld.lastMousePos.y) } ∧
            c1.sceneRect.center
              = { x := c.sceneRect.center.x + ((10 : ℚ) - overlapWorld.lastMousePos.x),
                  y := c.sceneRect.center.y + ((5 : ℚ) - overlapWorld.lastMousePos.y) }) ∧
          (c.isSelected = false → c1 = c) :=
  ⟨by decide, drag_step_moves_selected overlapWorld (by decide) { x := 10, y := 5 }⟩

theorem roundToDouble_of_bounds (q : ℚ) (e m : Int) (hq : q ≠ 0)
    (hlo : (2 : ℚ) ^ e ≤ |q|) (hhi : |q| < (2 : ℚ) ^ (e + 1)) (he : -1022 ≤ e)
    (hm : roundHalfEven (q / 2 ^ (e - 52)) = m) :
    roundToDouble q = (m : ℚ) * 2 ^ (e - 52) := by
  have hpos : 0 < |q| := abs_pos.mpr hq
  have hlog : Int.log 2 |q| = e := by
    apply le_antisymm
    · have h1 : Int.log 2 |q| < e + 1 :=
        (Int.lt_zpow_iff_log_lt (by norm_num) hpos).mp (by simpa using hhi)
      omega
    · exact (Int.zpow_le_iff_le_log (by norm_num) hpos).mp (by simpa using hlo)
  unfold roundToDouble
  rw [if_neg hq, hlog, max_eq_left he, hm]

theorem roundToDouble_zero : roundToDouble 0 = 0 := by
  simp [roundToDouble]

/-- The difference `0.9 - 0.2` computed in `double`. -/
theorem roundToDouble_delta :
    roundToDouble (double09 - double02) = 6305039478318694 / 9007199254740992 := by
  rw [roundToDouble_of_bounds (double09 - double02) (-1) 6305039478318694]
  · norm_num
  · norm_num [double09, double02]
  · norm_num [double09, double02, abs_of_pos]
  · norm_num [double09, double02, abs_of_pos]
  · norm_num
  · norm_num [double09, double02, roundHalfEven]

/-- The sum `0.2 + (0.9 - 0.2)` computed in `double`. -/
theorem roundToDouble_sum :
    roundToDouble (double02 + 6305039478318694 / 9007199254740992)
      = 8106479329266892 / 9007199254740992 := by
  rw [roundToDouble_of_bounds (double02 + 6305039478318694 / 9007199254740992) (-1)
    8106479329266892]
  · norm_num
  · norm_num [double02]
  · norm_num [double02, abs_of_pos]
  · norm_num [double02, abs_of_pos]
  · norm_num
  · norm_num [double02, roundHalfEven]

/-- The constants `double02` and `double09` are the `double` values of `0.2` and
`0.9`, and rounding leaves them as they are. -/
theorem double_constants :
    roundToDouble (1 / 5) = double02 ∧ roundToDouble (9 / 10) = double09 ∧
      roundToDouble double02 = double02 ∧ roundToDouble double09 = double09 := by
  refine ⟨?_, ?_, ?_, ?_⟩
  · rw [roundToDouble_of_bounds (1 / 5) (-3) 7205759403792794]
    · norm_num [double02]
    · norm_num
    · norm_num [abs_of_pos]
    · norm_num [abs_of_pos]
    · norm_num
    · norm_num [roundHalfEven]
  · rw [roundToDouble_of_bounds (9 / 10) (-1) 8106479329266893]
    · norm_num [double09]
    · norm_num
    · norm_num [abs_of_pos]
    · norm_num [abs_of_pos]
    · norm_num
    · norm_num [roundHalfEven]
  · rw [roundToDouble_of_bounds double02 (-3) 7205759403792794]
    · norm_num [double02]
    · norm_num [double02]
    · norm_num [double02, abs_of_pos]
    · norm_num [double02, abs_of_pos]
    · norm_num
    · norm_num [double02, roundHalfEven]
  · rw [roundToDouble_of_bounds double09 (-1) 8106479329266893]
    · norm_num [double09]
    · norm_num [double09]
    · norm_num [double09, abs_of_pos]
    · norm_num [double09, abs_of_pos]
    · norm_num
    · norm_num [double09, roundHalfEven]

theorem driftWorld_wellFormed : driftWorld.wellFormed := by
  decide

theorem mouseMoveEventDouble_spec (w : World) (hw : w.wellFormed) (scenePos : QPointF) :
    ∃ w1, mouseMoveEventDouble w true scenePos = some w1 ∧
      w1.circles = w.circles ∧ w1.scene = w.scene ∧ w1.lastMousePos = scenePos ∧
      ∀ q, w1.heap q =
        if q ∈ w.circles ∧ w.heap.selectedAt q = true then
          (w.heap q).map (fun c =>
            c.moveByDouble (roundToDouble (scenePos.x - w.lastMousePos.x))
              (roundToDouble (scenePos.y - w.lastMousePos.y)))
        else w.heap q := by
  obtain ⟨h1, he, hs⟩ := forEachSelected_spec (fun c =>
    c.moveByDouble (roundToDouble (scenePos.x - w.lastMousePos.x))
      (roundToDouble (scenePos.y - w.lastMousePos.y))) w hw
  exact ⟨{ heap := h1, circles := w.circles, scene := w.scene, lastMousePos := scenePos },
    by simp [mouseMoveEventDouble, moveSelectedCirclesDouble, getSelectedCircles_eq w hw.alive, he],
    rfl, rfl, rfl, hs⟩

/-- The state `driftWorld` is what the drag step in `double` arithmetic makes of
`pressedWorld` when the pointer moves to `(0.2, 0)`. -/
theorem driftWorld_reached :
    mouseMoveEventDouble pressedWorld true { x := double02, y := 0 } = some driftWorld := by
  obtain ⟨w1, he, hc, hs, hl, hh⟩ :=
    mouseMoveEventDouble_spec pressedWorld (by decide) { x := double02, y := 0 }
  rw [he]
  congr 1
  apply World.eq_of_fields w1 driftWorld ?_ hc hs hl
  intro q
  rw [hh q]
  by_cases hq : q = 1
  · subst hq
    rw [if_pos ⟨by decide, by decide⟩]
    show some (CCircle.moveByDouble _ (roundToDouble (double02 - 0))
      (roundToDouble ((0 : ℚ) - 0))) = _
    have hp : ((CCircle.construct (-50) (-50) 100).setSelected true).pos
        = { x := 0, y := 0 } := rfl
    simp only [CCircle.moveByDouble, hp, sub_zero, zero_add, add_zero, roundToDouble_zero,
      double_constants.2.2.1]
    rfl
  · have hn : q ∉ pressedWorld.circles := by
      show q ∉ [1]
      simpa using hq
    rw [if_neg (fun h => hn h.1)]
    show (if q = 1 then _ else none) = (if q = 1 then _ else none)
    rw [if_neg hq, if_neg hq]

/-- C2, as stated, fails in the arithmetic of the program (`double`): in
`driftWorld` the selected circle 1 has item position `(0.2, 0)` and the anchor is
`(0.2, 0)`; after the drag step to `(0.9, 0)` its item position is
`(8106479329266892 / 2 ^ 53, 0)`, one unit in the last place below `0.9`, so the
circle and its centre have moved neither by the exact difference `0.9 - 0.2`
nor by the difference as the program computes it. -/
theorem drag_step_inexact_in_double :
    ∃ w1 c c1, driftWorld.wellFormed ∧
      mouseMoveEventDouble driftWorld true { x := double09, y := 0 } = some w1 ∧
      driftWorld.heap 1 = some c ∧ w1.heap 1 = some c1 ∧ c.isSelected = true ∧
      c1.pos = { x := 8106479329266892 / 9007199254740992, y := 0 } ∧
      c1.pos.x ≠ c.pos.x + (double09 - driftWorld.lastMousePos.x) ∧
      c1.pos.x ≠ c.pos.x + roundToDouble (double09 - driftWorld.lastMousePos.x) ∧
      c1.sceneRect.center.x
        ≠ c.sceneRect.center.x + (double09 - driftWorld.lastMousePos.x) ∧
      c1.sceneRect.center.x
        ≠ c.sceneRect.center.x + roundToDouble (double09 - driftWorld.lastMousePos.x) := by
  obtain ⟨w1, he, _, _, _, hh⟩ :=
    mouseMoveEventDouble_spec driftWorld driftWorld_wellFormed { x := double09, y := 0 }
  have h1 : w1.heap 1 = some
      { (CCircle.construct (-50) (-50) 100) with
        selected := true, pos := { x := 8106479329266892 / 9007199254740992, y := 0 } } := by
    rw [hh 1, if_pos ⟨by decide, by decide⟩]
    show some (CCircle.moveByDouble _ (roundToDouble (double09 - double02))
      (roundToDouble ((0 : ℚ) - 0))) = _
    rw [roundToDouble_delta]
    simp only [CCircle.moveByDouble, sub_zero, add_zero, roundToDouble_zero, roundToDouble_sum]
  have hx1 : (8106479329266892 / 9007199254740992 : ℚ) ≠ double02 + (double09 - double02) := by
    norm_num [double02, double09]
  have hx2 : (8106479329266892 / 9007199254740992 : ℚ)
      ≠ double02 + roundToDouble (double09 - double02) := by
    rw [roundToDouble_delta]
    norm_num [double02]
  refine ⟨w1, _, _, driftWorld_wellFormed, he, rfl, h1, rfl, rfl, hx1, hx2, ?_, ?_⟩
  · intro hcon
    apply hx1
    have hl : driftWorld.lastMousePos.x = double02 := rfl
    simp only [CCircle.sceneRect, QRectF.center, hl] at hcon
    linarith
  · intro hcon
    apply hx2
    have hl : driftWorld.lastMousePos.x = double02 := rfl
    simp only [CCircle.sceneRect, QRectF.center, hl] at hcon
    linarith

/-- C9: on a well-formed state (the state after the press, anchor
`lastMousePos = P0`) a drag over the move points `ps = [P1, ..., Pn]` is the left
fold of the single drag step over `ps`, it returns, and in the final state every
selected circle of the store is displaced by exactly `Pn - P0`, every unselected
circle is unchanged, no flag has changed, the anchor is `Pn` (`P0` when `ps` is
empty), and every other sequence of move points that ends at the same point
gives the same final state. -/
theorem drag_sequence_is_fold (w : World) (hw : w.wellFormed) (ps : List QPointF) :
    dragSequence w ps = ps.foldlM (fun s p => mouseMoveEvent s true p) w ∧
    ∃ w1, dragSequence w ps = some w1 ∧ w1.circles = w.circles ∧
      w1.lastMousePos = ps.getLast?.getD w.lastMousePos ∧
      (∀ p ∈ w.circles, ∃ c c1, w.heap p = some c ∧ w1.heap p = some c1 ∧
        c1.isSelected = c.isSelected ∧ c1.rect = c.rect ∧
        (c.isSelected = true →
          c1.pos = { x := c.pos.x + ((ps.getLast?.getD w.lastMousePos).x - w.lastMousePos.x),
                     y := c.pos.y + ((ps.getLast?.getD w.lastMousePos).y - w.lastMousePos.y) } ∧
          c1.sceneRect.center
            = { x := c.sceneRect.center.x
                  + ((ps.getLast?.getD w.lastMousePos).x - w.lastMousePos.x),
                y := c.sceneRect.center.y
                  + ((ps.getLast?.getD w.lastMousePos).y - w.lastMousePos.y) }) ∧
        (c.isSelected = false → c1 = c)) ∧
      (∀ qs : List QPointF,
        qs.getLast?.getD w.lastMousePos = ps.getLast?.getD w.lastMousePos →
          dragSequence w qs = some w1) := by
  constructor
  · clear hw
    induction ps generalizing w with
    | nil => rfl
    | cons p rest ih =>
      rw [List.foldlM_cons]
      cases he : mouseMoveEvent w true p with
      | none => simp [dragSequence, he]
      | some w1 => simpa [dragSequence, he] using ih w1
  · obtain ⟨w1, he, _, hc, hs, hl, hh⟩ := dragSequence_spec ps w hw
    refine ⟨w1, he, hc, hl, moved_circle w hw w1.heap _ _ hh, ?_⟩
    intro qs hqs
    obtain ⟨w2, he2, _, hc2, hs2, hl2, hh2⟩ := dragSequence_spec qs w hw
    rw [he2]
    congr 1
    apply World.eq_of_fields
    · intro q
      rw [hh q, hh2 q, hqs]
    · rw [hc, hc2]
    · rw [hs, hs2]
    · rw [hl, hl2, hqs]

/-- C9, instance: the drag `(3, 4), (10, 5)` in `overlapWorld`. -/
theorem drag_sequence_is_fold_witness :
    overlapWorld.wellFormed ∧
      ∃ w1, dragSequence overlapWorld [{ x := 3, y := 4 }, { x := 10, y := 5 }] = some w1 ∧
        w1.lastMousePos = { x := 10, y := 5 } ∧
        dragSequence overlapWorld [{ x := 10, y := 5 }] = some w1 := by
  refine ⟨by decide, ?_⟩
  obtain ⟨w1, he, _, hl, _, hind⟩ :=
    (drag_sequence_is_fold overlapWorld (by decide) [{ x := 3, y := 4 }, { x := 10, y := 5 }]).2
  exact ⟨w1, he, by simpa using hl, hind [{ x := 10, y := 5 }] (by simp)⟩

/-! ## Selection by clicking -/

/-- C4: on a well-formed state a left-click at `scenePos` without Ctrl returns;
the store and the scene are the same lists (nothing added or removed); every
stored circle keeps its data and has `selected = true` afterwards if and only if
it contains `scenePos`; in particular when no stored circle contains `scenePos`
none is selected. -/
theorem plain_click_selects_exactly_hit (qt : Toolkit) (w : World) (hw : w.wellFormed)
    (scenePos : QPointF) (fresh : Ptr) :
    ∃ w1, mousePressEvent qt w MouseButton.left false scenePos fresh = some w1 ∧
      w1.circles = w.circles ∧ w1.scene = w.scene ∧
      (∀ p ∈ w.circles, ∃ c, w.heap p = some c ∧
        w1.heap p = some (c.setSelected (c.isCursorFocused qt scenePos)) ∧
        (w1.heap.selectedAt p = true ↔ c.isCursorFocused qt scenePos = true)) ∧
      ((∀ p ∈ w.circles, ∀ c, w.heap p = some c → c.isCursorFocused qt scenePos = false) →
        ∀ p ∈ w.circles, w1.heap.selectedAt p = false) := by
  obtain ⟨w1, he, _, hc, hs, _, hin, _⟩ := mousePress_left_plain_spec qt w hw scenePos fresh
  have hpt : ∀ p ∈ w.circles, ∃ c, w.heap p = some c ∧
      w1.heap p = some (c.setSelected (c.isCursorFocused qt scenePos)) ∧
      (w1.heap.selectedAt p = true ↔ c.isCursorFocused qt scenePos = true) := by
    intro p hp
    obtain ⟨c, hcp⟩ := Option.isSome_iff_exists.mp (hw.alive p hp)
    have h1 : w1.heap p = some (c.setSelected (c.isCursorFocused qt scenePos)) := by
      rw [hin p hp, hcp]
      rfl
    refine ⟨c, hcp, h1, ?_⟩
    rw [selectedAt_of_eq_some h1]
    rfl
  refine ⟨w1, he, hc, hs, hpt, ?_⟩
  intro hnone p hp
  obtain ⟨c, hcp, _, hiff⟩ := hpt p hp
  have hf := hnone p hp c hcp
  cases hsel : w1.heap.selectedAt p with
  | false => rfl
  | true =>
    rw [hiff.mp hsel] at hf
    exact absurd hf (by simp)

/-- C4, instance: a click at `(10, 50)` in `overlapWorld` with the exact
geometry. -/
theorem plain_click_selects_exactly_hit_witness :
    overlapWorld.wellFormed ∧
      ∃ w1, mousePressEvent exactToolkit overlapWorld MouseButton.left false
          { x := 10, y := 50 } 0 = some w1 ∧
        w1.circles = overlapWorld.circles ∧ w1.scene = overlapWorld.scene ∧
        (∀ p ∈ overlapWorld.circles, ∃ c, overlapWorld.heap p = some c ∧
          w1.heap p = some (c.setSelected (c.isCursorFocused exactToolkit { x := 10, y := 50 })) ∧
          (w1.heap.selectedAt p = true ↔
            c.isCursorFocused exactToolkit { x := 10, y := 50 } = true)) ∧
        ((∀ p ∈ overlapWorld.circles, ∀ c, overlapWorld.heap p = some c →
            c.isCursorFocused exactToolkit { x := 10, y := 50 } = false) →
          ∀ p ∈ overlapWorld.circles, w1.heap.selectedAt p = false) :=
  ⟨by decide, plain_click_selects_exactly_hit exactToolkit overlapWorld (by decide)
    { x := 10, y := 50 } 0⟩

/-- C5: on a well-formed state a left-click at `scenePos` with Ctrl held returns;
the store and the scene are the same lists; every stored circle keeps its data
except that its flag becomes `selected || contains scenePos`: a circle selected
before is selected after, and a circle that contains `scenePos` is selected
after. -/
theorem ctrl_click_is_additive (qt : Toolkit) (w : World) (hw : w.wellFormed)
    (scenePos : QPointF) (fresh : Ptr) :
    ∃ w1, mousePressEvent qt w MouseButton.left true scenePos fresh = some w1 ∧
      w1.circles = w.circles ∧ w1.scene = w.scene ∧
      ∀ p ∈ w.circles, ∃ c c1, w.heap p = some c ∧ w1.heap p = some c1 ∧
        c1 = c.setSelected (c.isSelected || c.isCursorFocused qt scenePos) ∧
        (c.isSelected = true → c1.isSelected = true) ∧
        (c.isCursorFocused qt scenePos = true → c1.isSelected = true) := by
  obtain ⟨w1, he, _, hc, hs, _, hh⟩ := mousePress_left_ctrl_spec qt w hw scenePos fresh
  refine ⟨w1, he, hc, hs, ?_⟩
  intro p hp
  obtain ⟨c, hcp⟩ := Option.isSome_iff_exists.mp (hw.alive p hp)
  have hps : p ∈ w.scene := hw.2.2 p hp
  have h1 : w1.heap p = some (c.setSelected (c.isSelected || c.isCursorFocused qt scenePos)) := by
    rw [hh p, hcp]
    by_cases hf : c.isCursorFocused qt scenePos = true
    · simp [hps, hf]
    · have hf0 : c.isCursorFocused qt scenePos = false := by simpa using hf
      cases hsel : c.selected with
      | true => simp [hf0, CCircle.isSelected, hsel, setSelected_of_selected c hsel]
      | false => simp [hf0, CCircle.isSelected, hsel, setSelected_of_unselected c hsel]
  refine ⟨c, _, hcp, h1, rfl, ?_, ?_⟩
  · intro hsel
    show (c.isSelected || c.isCursorFocused qt scenePos) = true
    rw [hsel]
    rfl
  · intro hf
    simp [CCircle.setSelected, CCircle.isSelected, hf]

/-- C5, instance: a Ctrl-click at `(10, 50)` in `overlapWorld` with the exact
geometry. -/
theorem ctrl_click_is_additive_witness :
    overlapWorld.wellFormed ∧
      ∃ w1, mousePressEvent exactToolkit overlapWorld MouseButton.left true
          { x := 10, y := 50 } 0 = some w1 ∧
        w1.circles = overlapWorld.circles ∧ w1.scene = overlapWorld.scene ∧
        ∀ p ∈ overlapWorld.circles, ∃ c c1, overlapWorld.heap p = some c ∧
          w1.heap p = some c1 ∧
          c1 = c.setSelected
            (c.isSelected || c.isCursorFocused exactToolkit { x := 10, y := 50 }) ∧
          (c.isSelected = true → c1.isSelected = true) ∧
          (c.isCursorFocused exactToolkit { x := 10, y := 50 } = true →
            c1.isSelected = true) :=
  ⟨by decide, ctrl_click_is_additive exactToolkit overlapWorld (by decide)
    { x := 10, y := 50 } 0⟩

/-- C10: on a well-formed state, for every hit test and every collision relation
(`qt`), `selectCircles(scenePos, false)` gives the same result as the procedure
with the loop over `getSelectedCircles()` removed; it returns, the store is the
same list, and a stored circle is selected afterwards if and only if it was
selected before or it contains `scenePos`. -/
theorem selectCircles_collision_loop_inert (qt : Toolkit) (w : World) (hw : w.wellFormed)
    (scenePos : QPointF) :
    selectCircles qt w scenePos false = selectCirclesWithoutCollision qt w scenePos false ∧
    ∃ w1, selectCircles qt w scenePos false = some w1 ∧ w1.circles = w.circles ∧
      ∀ p ∈ w.circles, ∃ c, w.heap p = some c ∧
        (w1.heap.selectedAt p = true ↔
          (c.isSelected = true ∨ c.isCursorFocused qt scenePos = true)) := by
  refine ⟨selectLoop_eq_withoutCollision qt scenePos false _ w hw.alive, ?_⟩
  obtain ⟨w1, he, _, hc, _, _, hh⟩ := selectCircles_spec qt w hw scenePos
  refine ⟨w1, he, hc, ?_⟩
  intro p hp
  obtain ⟨c, hcp⟩ := Option.isSome_iff_exists.mp (hw.alive p hp)
  have hps : p ∈ w.scene := hw.2.2 p hp
  refine ⟨c, hcp, ?_⟩
  unfold Heap.selectedAt
  rw [hh p, hcp]
  by_cases hf : c.isCursorFocused qt scenePos = true
  · simp [hps, hf, CCircle.setSelected, CCircle.isSelected]
  · simp [hf, CCircle.isSelected]

/-- C10, instance: `selectCircles` at `(10, 50)` in `overlapWorld` with the exact
geometry, where the hit circle 1 collides with the selected circle 2. -/
theorem selectCircles_collision_loop_inert_witness :
    overlapWorld.wellFormed ∧
      selectCircles exactToolkit overlapWorld { x := 10, y := 50 } false
        = selectCirclesWithoutCollision exactToolkit overlapWorld { x := 10, y := 50 } false ∧
      ∃ w1, selectCircles exactToolkit overlapWorld { x := 10, y := 50 } false = some w1 ∧
        w1.circles = overlapWorld.circles ∧
        ∀ p ∈ overlapWorld.circles, ∃ c, overlapWorld.heap p = some c ∧
          (w1.heap.selectedAt p = true ↔
            (c.isSelected = true ∨
              c.isCursorFocused exactToolkit { x := 10, y := 50 } = true)) :=
  ⟨by decide, selectCircles_collision_loop_inert exactToolkit overlapWorld (by decide)
    { x := 10, y := 50 }⟩

theorem qrealToInt_intCast (n : Int) : qrealToInt (n : ℚ) = n := by
  simp [qrealToInt]

theorem circleA_focused : circleA.isCursorFocused exactToolkit { x := 10, y := 50 } = true := by
  have h0 : qrealToInt 0 = 0 := by simpa using qrealToInt_intCast 0
  simp only [circleA, CCircle.construct, CCircle.isCursorFocused, CCircle.mapFromScene,
    exactToolkit, QRect, h0]
  norm_num

theorem circleB_not_focused :
    circleB.isCursorFocused exactToolkit { x := 10, y := 50 } = false := by
  have h0 : qrealToInt 0 = 0 := by simpa using qrealToInt_intCast 0
  have h50 : qrealToInt 50 = 50 := by simpa using qrealToInt_intCast 50
  simp only [circleB, CCircle.construct, CCircle.setSelected, CCircle.isCursorFocused,
    CCircle.mapFromScene, exactToolkit, QRect, h0, h50]
  norm_num

theorem circleA_collides_circleB : exactToolkit.collidesWithItem circleA circleB = true := by
  have h0 : qrealToInt 0 = 0 := by simpa using qrealToInt_intCast 0
  have h50 : qrealToInt 50 = 50 := by simpa using qrealToInt_intCast 50
  simp only [circleA, circleB, CCircle.construct, CCircle.setSelected, CCircle.sceneRect,
    QRectF.center, exactToolkit, QRect, h0, h50]
  norm_num

/-- C3 evaluated on the code: in `overlapWorld` circle 2 is selected, circle 1
overlaps it (they collide) and contains `(10, 50)`, circle 2 does not contain
that point; after a left-click at `(10, 50)` without Ctrl circle 1 is selected
and circle 2 is no longer selected. -/
theorem plain_click_drops_overlapping_selection :
    ∃ w1 a b, overlapWorld.heap 1 = some a ∧ overlapWorld.heap 2 = some b ∧
      b.isSelected = true ∧ exactToolkit.collidesWithItem a b = true ∧
      a.isCursorFocused exactToolkit { x := 10, y := 50 } = true ∧
      mousePressEvent exactToolkit overlapWorld MouseButton.left false
        { x := 10, y := 50 } 0 = some w1 ∧
      w1.heap.selectedAt 1 = true ∧ w1.heap.selectedAt 2 = false := by
  obtain ⟨w1, he, _, _, _, _, hin, _⟩ := mousePress_left_plain_spec exactToolkit overlapWorld
    overlapWorld_wellFormed { x := 10, y := 50 } 0
  have h1 : w1.heap 1 = some (circleA.setSelected true) := by
    rw [hin 1 (by decide), ← circleA_focused]
    rfl
  have h2 : w1.heap 2 = some (circleB.setSelected false) := by
    rw [hin 2 (by decide), ← circleB_not_focused]
    rfl
  refine ⟨w1, circleA, circleB, rfl, rfl, rfl, circleA_collides_circleB, circleA_focused, he,
    ?_, ?_⟩
  · rw [selectedAt_of_eq_some h1]
    rfl
  · rw [selectedAt_of_eq_some h2]
    rfl

/-! ## Creating a circle -/

theorem mousePress_right_spec (qt : Toolkit) (w : World) (controlPressed : Bool)
    (scenePos : QPointF) (fresh : Ptr) :
    ∃ w1, mousePressEvent qt w MouseButton.right controlPressed scenePos fresh = some w1 ∧
      w1.circles = w.circles ++ [fresh] ∧ w1.scene = w.scene ++ [fresh] ∧
      w1.lastMousePos = w.lastMousePos ∧
      w1.heap fresh = some (CCircle.construct (scenePos.x - 50) (scenePos.y - 50) 100) ∧
      ∀ q, q ≠ fresh → w1.heap q = w.heap q := by
  refine ⟨addCircle w fresh scenePos, by simp [mousePressEvent], rfl, rfl, rfl, ?_, ?_⟩
  · simp [addCircle, add]
  · intro q hq
    simp [addCircle, add, Function.update_noteq hq]

/-- A right-click at a scene point with integer coordinates `(m, n)`: the new
circle is the last entry of the store, not selected, its rectangle is
`(m - 50, n - 50)-(m + 50, n + 50)` with centre `(m, n)`, and the objects at all
other addresses are unchanged. -/
theorem right_click_integer_point (qt : Toolkit) (w : World) (controlPressed : Bool)
    (m n : Int) (fresh : Ptr) :
    ∃ w1 c, mousePressEvent qt w MouseButton.right controlPressed
        { x := (m : ℚ), y := (n : ℚ) } fresh = some w1 ∧
      w1.circles = w.circles ++ [fresh] ∧ w1.heap fresh = some c ∧ c.isSelected = false ∧
      c.rect.corners = ((m : ℚ) - 50, (n : ℚ) - 50, (m : ℚ) + 50, (n : ℚ) + 50) ∧
      c.rect.center = { x := (m : ℚ), y := (n : ℚ) } ∧
      ∀ q, q ≠ fresh → w1.heap q = w.heap q := by
  obtain ⟨w1, he, hc, _, _, hf, ho⟩ :=
    mousePress_right_spec qt w controlPressed { x := (m : ℚ), y := (n : ℚ) } fresh
  have hm : qrealToInt ((m : ℚ) - 50) = m - 50 := by
    have := qrealToInt_intCast (m - 50)
    push_cast at this
    exact this
  have hn : qrealToInt ((n : ℚ) - 50) = n - 50 := by
    have := qrealToInt_intCast (n - 50)
    push_cast at this
    exact this
  refine ⟨w1, _, he, hc, hf, rfl, ?_, ?_, ho⟩
  · simp only [CCircle.construct, QRectF.corners, QRect, hm, hn]
    push_cast
    simp only [Prod.mk.injEq, true_and]
    constructor <;> ring
  · simp only [CCircle.construct, QRectF.center, QRect, hm, hn]
    push_cast
    simp only [QPointF.mk.injEq]
    constructor <;> ring

/-- C6 evaluated on the code at a point with a fractional coordinate: a
right-click at `(200.5, 150)` in the initial state creates a circle (address 1,
last entry of the store, not selected) whose rectangle is
`(150, 100)-(250, 200)` with centre `(200, 150)`, not
`(150.5, 100)-(250.5, 200)` with centre `(200.5, 150)`. -/
theorem right_click_fractional_point :
    ∃ w1 c, mousePressEvent exactToolkit World.initial MouseButton.right false
        { x := 401 / 2, y := 150 } 1 = some w1 ∧
      w1.circles = [1] ∧ w1.heap 1 = some c ∧ c.isSelected = false ∧
      c.rect.corners = (150, 100, 250, 200) ∧
      c.rect.center = { x := 200, y := 150 } ∧
      c.rect.corners ≠ (401 / 2 - 50, 150 - 50, 401 / 2 + 50, 150 + 50) ∧
      c.rect.center ≠ { x := 401 / 2, y := 150 } := by
  obtain ⟨w1, he, hc, _, _, hf, _⟩ :=
    mousePress_right_spec exactToolkit World.initial false { x := 401 / 2, y := 150 } 1
  have hx : qrealToInt ((401 : ℚ) / 2 - 50) = 150 := by
    norm_num [qrealToInt, Int.tdiv]
  have hy : qrealToInt ((150 : ℚ) - 50) = 100 := by
    norm_num [qrealToInt, Int.tdiv]
  refine ⟨w1, _, he, hc, hf, rfl, ?_, ?_, ?_, ?_⟩
  · simp only [CCircle.construct, QRectF.corners, QRect, hx, hy]
    norm_num
  · simp only [CCircle.construct, QRectF.center, QRect, hx, hy]
    norm_num
  · simp only [CCircle.construct, QRectF.corners, QRect, hx, hy]
    norm_num
  · simp only [CCircle.construct, QRectF.center, QRect, hx, hy]
    norm_num

/-! ## Removing by index, and the store invariant -/

/-- C7: for every state and every integer `index`, when `index < 0` or
`index >= size` the call `deleteShape(index)` returns with the state unchanged;
when `0 <= index < size` and the stored pointers point to live circles it
returns, the store afterwards is the old one with exactly the entry at position
`index` erased (the other entries in their old order), and the size is smaller
by one. -/
theorem deleteShape_contract (w : World) (index : Int) :
    ((index < 0 ∨ (w.circles.length : Int) ≤ index) → deleteShape w index = some w) ∧
    ((∀ p ∈ w.circles, (w.heap p).isSome = true) → 0 ≤ index →
      index < (w.circles.length : Int) →
      ∃ w1, deleteShape w index = some w1 ∧
        w1.circles = w.circles.eraseIdx index.toNat ∧
        w1.circles.length + 1 = w.circles.length ∧
        (∀ i : Nat, i < index.toNat → w1.circles[i]? = w.circles[i]?) ∧
        (∀ i : Nat, index.toNat ≤ i → w1.circles[i]? = w.circles[i + 1]?)) := by
  refine ⟨deleteShape_outOfRange w index, ?_⟩
  intro hal h0 h1
  obtain ⟨p, _, he⟩ := deleteShape_inRange_eq w hal index h0 h1
  have hlt : index.toNat < w.circles.length := by omega
  refine ⟨_, he, rfl, ?_, ?_, ?_⟩
  · show (w.circles.eraseIdx index.toNat).length + 1 = w.circles.length
    rw [List.length_eraseIdx, if_pos hlt]
    omega
  · intro i hi
    show (w.circles.eraseIdx index.toNat)[i]? = _
    rw [List.getElem?_eraseIdx, if_pos hi]
  · intro i hi
    show (w.circles.eraseIdx index.toNat)[i]? = _
    rw [List.getElem?_eraseIdx, if_neg (by omega)]

/-- C7, instance: in `overlapWorld` (store `[1, 2]`) the indices `-1` and `2` do
nothing and index `0` leaves the store `[2]`. -/
theorem deleteShape_contract_witness :
    (∀ p ∈ overlapWorld.circles, (overlapWorld.heap p).isSome = true) ∧
      deleteShape overlapWorld (-1) = some overlapWorld ∧
      deleteShape overlapWorld 2 = some overlapWorld ∧
      ∃ w1, deleteShape overlapWorld 0 = some w1 ∧ w1.circles = [2] ∧
        w1.circles.length + 1 = overlapWorld.circles.length := by
  refine ⟨by decide, ?_, ?_, ?_⟩
  · exact (deleteShape_contract overlapWorld (-1)).1 (by decide)
  · exact (deleteShape_contract overlapWorld 2).1 (by decide)
  · obtain ⟨w1, he, hc, hlen, _⟩ :=
      (deleteShape_contract overlapWorld 0).2 (by decide) (by decide) (by decide)
    exact ⟨w1, he, by rw [hc]; decide, hlen⟩

/-- C8, as stated, fails for `add`: `overlapWorld` is well-formed (its store
`[1, 2]` has no duplicate entry), and after `add` of the circle at address 1,
which is already stored, the store is `[1, 2, 1]`. -/
theorem add_stored_circle_duplicates :
    overlapWorld.wellFormed ∧ overlapWorld.circles.Nodup ∧
      (add overlapWorld 1).circles = [1, 2, 1] ∧ ¬ (add overlapWorld 1).circles.Nodup := by
  decide

/-- C8, amended: on a well-formed state (duplicate-free store) the store is again
duplicate-free after `add(shape)` of a shape that is not yet stored, after
`deleteShape(index)` for every index, after `deleteSelectedCircles()` and after
`clear()`; each of these calls returns; `add` puts the new entry behind the old
ones, and after each of the other three the store is a sublist of the old store
(the surviving entries in their old order). -/
theorem store_operations_preserve_nodup (w : World) (hw : w.wellFormed) :
    (∀ p, p ∉ w.circles →
      (add w p).circles.Nodup ∧ (add w p).circles = w.circles ++ [p]) ∧
    (∀ index : Int, ∃ w1, deleteShape w index = some w1 ∧
      w1.circles.Nodup ∧ w1.circles.Sublist w.circles) ∧
    (∃ w1, deleteSelectedCircles w = some w1 ∧
      w1.circles.Nodup ∧ w1.circles.Sublist w.circles) ∧
    (∃ w1, clear w = some w1 ∧ w1.circles.Nodup ∧ w1.circles.Sublist w.circles) := by
  refine ⟨?_, ?_, ?_, ?_⟩
  · intro p hp
    refine ⟨?_, rfl⟩
    show (w.circles ++ [p]).Nodup
    exact List.Nodup.append hw.1 (List.nodup_singleton _) (by simpa using hp)
  · intro index
    by_cases hin : 0 ≤ index ∧ index < (w.circles.length : Int)
    · obtain ⟨w1, _, he, _, hw1, hc, _⟩ := deleteShape_inRange w hw index hin.1 hin.2
      exact ⟨w1, he, hw1.1, hc ▸ List.eraseIdx_sublist _ _⟩
    · refine ⟨w, deleteShape_outOfRange w index (by omega), hw.1, List.Sublist.refl _⟩
  · obtain ⟨w1, he, hw1, hc, _⟩ := deleteSelectedCircles_spec w hw
    exact ⟨w1, he, hw1.1, hc ▸ List.filter_sublist _⟩
  · obtain ⟨w1, he, hw1, hc, _⟩ := clear_spec w hw
    exact ⟨w1, he, hw1.1, hc ▸ List.nil_sublist _⟩

/-- C8, amended, instance: `overlapWorld` and the address 3, which is not
stored. -/
theorem store_operations_preserve_nodup_witness :
    overlapWorld.wellFormed ∧ 3 ∉ overlapWorld.circles ∧
      (add overlapWorld 3).circles.Nodup ∧
      (∃ w1, deleteShape overlapWorld 1 = some w1 ∧ w1.circles.Nodup) ∧
      (∃ w1, deleteSelectedCircles overlapWorld = some w1 ∧ w1.circles.Nodup) ∧
      (∃ w1, clear overlapWorld = some w1 ∧ w1.circles.Nodup) := by
  have h := store_operations_preserve_nodup overlapWorld (by decide)
  refine ⟨by decide, by decide, (h.1 3 (by decide)).1, ?_, ?_, ?_⟩
  · obtain ⟨w1, he, hn, _⟩ := h.2.1 1
    exact ⟨w1, he, hn⟩
  · obtain ⟨w1, he, hn, _⟩ := h.2.2.1
    exact ⟨w1, he, hn⟩
  · obtain ⟨w1, he, hn, _⟩ := h.2.2.2
    exact ⟨w1, he, hn⟩

/-! ## Well-formedness is an invariant of the handlers -/

/-- The initial state is well-formed, and every handler call returns a
well-formed state when started in one (for a right-click, `fresh` is an address
with no live object, as `new` returns). -/
theorem handlers_preserve_wellFormed :
    World.initial.wellFormed ∧
    (∀ (qt : Toolkit) (w : World) (button : MouseButton) (controlPressed : Bool)
        (scenePos : QPointF) (fresh : Ptr), w.wellFormed → w.heap fresh = none →
      ∃ w1, mousePressEvent qt w button controlPressed scenePos fresh = some w1 ∧
        w1.wellFormed) ∧
    (∀ (w : World) (leftHeld : Bool) (scenePos : QPointF), w.wellFormed →
      ∃ w1, mouseMoveEvent w leftHeld scenePos = some w1 ∧ w1.wellFormed) ∧
    (∀ (w : World) (isDelete : Bool), w.wellFormed →
      ∃ w1, keyPressEvent w isDelete = some w1 ∧ w1.wellFormed) := by
  refine ⟨by decide, ?_, ?_, ?_⟩
  · intro qt w button controlPressed scenePos fresh hw hfresh
    cases button with
    | left =>
      cases controlPressed with
      | true =>
        obtain ⟨w1, he, hw1, _⟩ := mousePress_left_ctrl_spec qt w hw scenePos fresh
        exact ⟨w1, he, hw1⟩
      | false =>
        obtain ⟨w1, he, hw1, _⟩ := mousePress_left_plain_spec qt w hw scenePos fresh
        exact ⟨w1, he, hw1⟩
    | right =>
      exact ⟨addCircle w fresh scenePos, by simp [mousePressEvent],
        addCircle_wellFormed w hw fresh scenePos hfresh⟩
    | other => exact ⟨w, by simp [mousePressEvent], hw⟩
  · intro w leftHeld scenePos hw
    cases leftHeld with
    | true =>
      obtain ⟨w1, he, hw1, _⟩ := mouseMoveEvent_spec w hw scenePos
      exact ⟨w1, he, hw1⟩
    | false => exact ⟨w, by simp [mouseMoveEvent], hw⟩
  · intro w isDelete hw
    cases isDelete with
    | true =>
      obtain ⟨w1, he, hw1, _⟩ := deleteSelectedCircles_spec w hw
      exact ⟨w1, by simpa [keyPressEvent] using he, hw1⟩
    | false => exact ⟨w, by simp [keyPressEvent], hw⟩

end Laba3
